import Mathlib

/-!
# iso3166: lookup of ISO 3166-1 country codes

A shallow embedding of `country.go` and a verification of its lookup contract.

Modelling conventions.

* A Go `string` is a Lean `String`; `==` on strings is equality, `+` is `++`.  Where the Go
  code looks at the bytes of a string (`len`, `s[0]`, `[]byte(s)`) the model goes through
  `strBytes`, the UTF-8 encoding of the string.
* The table `countries` is declared outside `country.go`; every function that reads it takes
  it as its first argument, a list of rows indexed from 0 in declaration order.
* `Country` is Go's `uint16`: a natural number, and the conversion `Country(c)` of a loop
  index is `c % 65536`.
* A Go result `(Country, error)` is a pair whose second component is `none` for `nil`.
* Go's `int` has `intSize` bits (32 or 64, by platform); it is a parameter of `Atoi`.
* `strconv.Quote`, used by the text of a parse error, is a parameter `quote`.
-/

set_option linter.dupNamespace false

namespace Iso3166

/-! ## Data model -/

/-- Row of the table `countries` (the struct behind `countries[c]`). -/
structure country where
  alpha2 : String
  alpha3 : String
  numeric : Int
  name : String
  deriving DecidableEq, Repr

/-- Go: `type Country uint16`.  Values are kept below 65536 by `toCountry`. -/
abbrev Country := Nat

/-- Go: the conversion `Country(c)` of an `int` loop index `c ≥ 0` to `uint16`. -/
def toCountry (c : Nat) : Country := c % 65536

/-- Go: `type Error string`. -/
structure Error where
  str : String
  deriving DecidableEq, Repr

/-- Go: `func (e Error) Error() string { return "iso3166: " + string(e) }`. -/
def Error.Error (e : Error) : String := "iso3166: " ++ e.str

/-! ## Accessors

`countries[c]` panics when `c` is out of range; the accessors return `none` there. -/

/-- Go: `func (c Country) Alpha2() string { return countries[c].alpha2 }`. -/
def Alpha2 (countries : List country) (c : Country) : Option String :=
  countries[c]?.map (fun r => r.alpha2)

/-- Go: `func (c Country) Alpha3() string { return countries[c].alpha3 }`. -/
def Alpha3 (countries : List country) (c : Country) : Option String :=
  countries[c]?.map (fun r => r.alpha3)

/-- Go: `func (c Country) Numeric() int { return countries[c].numeric }`. -/
def Numeric (countries : List country) (c : Country) : Option Int :=
  countries[c]?.map (fun r => r.numeric)

/-- Go: `func (c Country) Name() string { return countries[c].name }`. -/
def Name (countries : List country) (c : Country) : Option String :=
  countries[c]?.map (fun r => r.name)

/-! ## The scan `for c, country := range countries { if cond { return Country(c), nil } }` -/

/-- The `range` loop shared by the three lookups: walks the rows in order, `c` being the index
of the head of the remaining rows, and stops at the first row satisfying `p`, returning its
index; `none` when the loop runs off the end of the table. -/
def rangeFind (p : country → Bool) : List country → Nat → Option Nat
  | [], _ => none
  | r :: rs, c => if p r then some c else rangeFind p rs (c + 1)

/-- Go: `FromAlpha2`:
`for c, country := range countries { if country.alpha2 == alpha2 { return Country(c), nil } }`
`return 0, Error("no country exists with alpha2-code " + alpha2)`. -/
def FromAlpha2 (countries : List country) (alpha2 : String) : Country × Option Error :=
  match rangeFind (fun r => r.alpha2 == alpha2) countries 0 with
  | some c => (toCountry c, none)
  | none => (0, some ⟨"no country exists with alpha2-code " ++ alpha2⟩)

/-- Go: `FromAlpha3`:
`for c, country := range countries { if country.alpha3 == alpha3 { return Country(c), nil } }`
`return 0, Error("no country exists with alpha3-code " + alpha3)`. -/
def FromAlpha3 (countries : List country) (alpha3 : String) : Country × Option Error :=
  match rangeFind (fun r => r.alpha3 == alpha3) countries 0 with
  | some c => (toCountry c, none)
  | none => (0, some ⟨"no country exists with alpha3-code " ++ alpha3⟩)

/-! ## The bytes of a Go string -/

/-- UTF-8 encoding of one code point, as byte values. -/
def utf8Bytes (c : Char) : List Nat :=
  let v := c.toNat
  if v ≤ 0x7f then [v]
  else if v ≤ 0x7ff then [0xc0 + v / 64, 0x80 + v % 64]
  else if v ≤ 0xffff then [0xe0 + v / 4096, 0x80 + v / 64 % 64, 0x80 + v % 64]
  else [0xf0 + v / 262144, 0x80 + v / 4096 % 64, 0x80 + v / 64 % 64, 0x80 + v % 64]

/-- Go: `[]byte(s)`, the bytes of a string. -/
def strBytes (s : String) : List Nat := s.data.flatMap utf8Bytes

/-- Go: `len(s)`, the number of bytes of a string. -/
def len (s : String) : Nat := (strBytes s).length

/-- Go: `s[1:]` for a string whose first byte is an ASCII character (here a sign): the string
without its first character. -/
def dropFirst (s : String) : String := ⟨s.data.tail⟩

/-! ## `strconv`: errors

`strconv` and `fmt` are packages of Go's standard library; the definitions of this and the
next two sections follow `strconv/atoi.go` and the integer formatting of `fmt/format.go`. -/

/-- Go: `strconv.ErrSyntax` and `strconv.ErrRange`. -/
inductive ParseErr where
  | ErrSyntax
  | ErrRange
  deriving DecidableEq, Repr

/-- Go: the texts of `ErrSyntax` and `ErrRange`. -/
def ParseErr.Error : ParseErr → String
  | .ErrSyntax => "invalid syntax"
  | .ErrRange => "value out of range"

/-- Go: `strconv.NumError`. -/
structure NumError where
  Func : String
  Num : String
  Err : ParseErr
  deriving DecidableEq, Repr

/-- Go: `func (e *NumError) Error() string`, namely
`"strconv." + e.Func + ": " + "parsing " + Quote(e.Num) + ": " + e.Err.Error()`. -/
def NumError.Error (quote : String → String) (e : NumError) : String :=
  "strconv." ++ e.Func ++ ": " ++ "parsing " ++ quote e.Num ++ ": " ++ e.Err.Error

/-- Go: `syntaxError(fn, str)`. -/
def syntaxError (fn str : String) : NumError := ⟨fn, str, .ErrSyntax⟩

/-- Go: `rangeError(fn, str)`. -/
def rangeError (fn str : String) : NumError := ⟨fn, str, .ErrRange⟩

/-- Go: `strconv.Quote` on a string of printable ASCII characters without a double quote or
a backslash: the string between double quotes.  Used to instantiate `quote` in examples. -/
def plainQuote (s : String) : String := "\"" ++ s ++ "\""

/-! ## `strconv.ParseUint(s, 10, 0)`, `strconv.ParseInt(s, 10, 0)` and `strconv.Atoi` -/

/-- Go: `const maxUint64 = 1<<64 - 1`. -/
def maxUint64 : Nat := 2 ^ 64 - 1

/-- Go: `lower(c) = c | ('x' - 'X')`. -/
def lower (c : Nat) : Nat := c ||| 32

/-- The digit loop of `ParseUint` in base 10 (`base0` is false, so `_` is not skipped).
`cutoff = maxUint64/10 + 1`; `n` is a `uint64`. -/
def parseUintLoop (s0 : String) (maxVal : Nat) : List Nat → Nat → Nat × Option NumError
  | [], n => (n, none)
  | c :: cs, n =>
    if 48 ≤ c ∧ c ≤ 57 then
      let d := c - 48
      if d ≥ 10 then (0, some (syntaxError "ParseUint" s0))
      else if n ≥ maxUint64 / 10 + 1 then (maxVal, some (rangeError "ParseUint" s0))
      else
        let n10 := (n * 10) % 2 ^ 64
        let n1 := (n10 + d) % 2 ^ 64
        if n1 < n10 ∨ n1 > maxVal then (maxVal, some (rangeError "ParseUint" s0))
        else parseUintLoop s0 maxVal cs n1
    else if 97 ≤ lower c ∧ lower c ≤ 122 then
      let d := lower c - 97 + 10
      if d ≥ 10 then (0, some (syntaxError "ParseUint" s0))
      else (0, some (syntaxError "ParseUint" s0))
    else (0, some (syntaxError "ParseUint" s0))

/-- Go: `ParseUint(s, 10, 0)` with `IntSize = intSize`. -/
def ParseUint (intSize : Nat) (s : String) : Nat × Option NumError :=
  if s = "" then (0, some (syntaxError "ParseUint" s))
  else
    let maxVal := (2 ^ intSize % 2 ^ 64 + 2 ^ 64 - 1) % 2 ^ 64
    parseUintLoop s maxVal (strBytes s) 0

/-- Go: `ParseInt(s, 10, 0)` with `IntSize = intSize`. -/
def ParseInt (intSize : Nat) (s : String) : Int × Option NumError :=
  if s = "" then (0, some (syntaxError "ParseInt" s))
  else
    let s0 := s
    let first := (strBytes s).head?
    let neg := first = some 45
    let s1 := if first = some 43 then dropFirst s else if first = some 45 then dropFirst s else s
    match ParseUint intSize s1 with
    | (un, some err) =>
      if err.Err ≠ ParseErr.ErrRange then
        (0, some { err with Func := "ParseInt", Num := s0 })
      else
        let cutoff := 2 ^ (intSize - 1) % 2 ^ 64
        if ¬ neg ∧ un ≥ cutoff then ((cutoff : Int) - 1, some (rangeError "ParseInt" s0))
        else if neg ∧ un > cutoff then (- (cutoff : Int), some (rangeError "ParseInt" s0))
        else (if neg then - (un : Int) else (un : Int), none)
    | (un, none) =>
      let cutoff := 2 ^ (intSize - 1) % 2 ^ 64
      if ¬ neg ∧ un ≥ cutoff then ((cutoff : Int) - 1, some (rangeError "ParseInt" s0))
      else if neg ∧ un > cutoff then (- (cutoff : Int), some (rangeError "ParseInt" s0))
      else (if neg then - (un : Int) else (un : Int), none)

/-- Two's-complement wrap of an integer to a signed `w`-bit value (Go `int` arithmetic and
the conversion `int(i64)`). -/
def wrapInt (w : Nat) (v : Int) : Int := (v + 2 ^ (w - 1)) % 2 ^ w - 2 ^ (w - 1)

/-- The digit loop of the fast path of `Atoi`: `ch -= '0'` on a byte, `n = n*10 + int(ch)`
on an `int`; `none` is the `return 0, syntaxError(fnAtoi, s0)` inside the loop. -/
def atoiFastLoop (intSize : Nat) : List Nat → Int → Option Int
  | [], n => some n
  | ch :: cs, n =>
    let ch1 := (ch + 256 - 48) % 256
    if ch1 > 9 then none
    else atoiFastLoop intSize cs (wrapInt intSize (n * 10 + (ch1 : Int)))

/-- Go: `strconv.Atoi`, for an `int` of `intSize` bits. -/
def Atoi (intSize : Nat) (s : String) : Int × Option NumError :=
  let sLen := len s
  if (intSize = 32 ∧ (0 < sLen ∧ sLen < 10)) ∨ (intSize = 64 ∧ (0 < sLen ∧ sLen < 19)) then
    let s0 := s
    let first := (strBytes s).head?
    let signed := first = some 45 ∨ first = some 43
    let s1 := if signed then dropFirst s else s
    if signed ∧ len s1 < 1 then (0, some (syntaxError "Atoi" s0))
    else
      match atoiFastLoop intSize (strBytes s1) 0 with
      | none => (0, some (syntaxError "Atoi" s0))
      | some n => (if first = some 45 then wrapInt intSize (- n) else n, none)
  else
    match ParseInt intSize s with
    | (i64, some nerr) => (wrapInt intSize i64, some { nerr with Func := "Atoi" })
    | (i64, none) => (wrapInt intSize i64, none)

/-! ## `fmt.Sprintf("%03d", n)` -/

/-- The byte `'0' + d` written by `fmtInteger` for a decimal digit `d`. -/
def digitChar (d : Nat) : Char := Char.ofNat (48 + d)

/-- The digit loop of `fmtInteger` in base 10, most significant digit first:
`for u >= 10 { next := u / 10; buf[i] = '0' + u - next*10; u = next }; buf[i] = '0' + u`. -/
def fmtDigits (u : Nat) : List Char :=
  if u < 10 then [digitChar u]
  else fmtDigits (u / 10) ++ [digitChar (u - u / 10 * 10)]
termination_by u
decreasing_by omega

/-- The zero-padding loop of `fmtInteger`:
`for i > 0 && prec > len(buf)-i { i--; buf[i] = '0' }`. -/
def padZeros (prec : Nat) (ds : List Char) : List Char :=
  if prec > ds.length then padZeros prec ('0' :: ds) else ds
termination_by prec - ds.length
decreasing_by simp only [List.length_cons]; omega

/-- Go: `fmt.Sprintf("%03d", n)` for an `int`: with the `0` flag the width 3 becomes the
precision, less one when a sign is written; digits, zero padding, then the sign. -/
def sprintf03d (n : Int) : String :=
  if n < 0 then ⟨'-' :: padZeros 2 (fmtDigits n.natAbs)⟩
  else ⟨padZeros 3 (fmtDigits n.natAbs)⟩

/-! ## The remaining functions of `country.go` -/

/-- Go: `func (c Country) StringNumeric() string
{ return fmt.Sprintf("%03d", countries[c].numeric) }`. -/
def StringNumeric (countries : List country) (c : Country) : Option String :=
  countries[c]?.map (fun r => sprintf03d r.numeric)

/-- Go: `FromNumeric`:
`n, err := strconv.Atoi(numeric); if err != nil { return 0, Error(err.Error()) }`
`for c, country := range countries { if country.numeric == n { return Country(c), nil } }`
`return 0, Error("no country exists with numeric-code " + numeric)`. -/
def FromNumeric (quote : String → String) (intSize : Nat) (countries : List country)
    (numeric : String) : Country × Option Error :=
  match Atoi intSize numeric with
  | (_, some err) => (0, some ⟨err.Error quote⟩)
  | (n, none) =>
    match rangeFind (fun r => r.numeric == n) countries 0 with
    | some c => (toCountry c, none)
    | none => (0, some ⟨"no country exists with numeric-code " ++ numeric⟩)

/-- Go: `func Must(c Country, err error) Country { if err != nil { panic(err) }; return c }`.
The `error` interface holds a value of any type `ε` (`none` is `nil`); a panic whose value is
`e` is `Except.error e`, a normal return of `c` is `Except.ok c`. -/
def Must {ε : Type} (c : Country) (err : Option ε) : Except ε Country :=
  match err with
  | some e => Except.error e
  | none => Except.ok c

/-- Every accessor of `country.go` is defined at `c`: none of the five index expressions
`countries[c]` panics. -/
def accessorsDefined (countries : List country) (c : Country) : Prop :=
  (Alpha2 countries c).isSome ∧ (Alpha3 countries c).isSome ∧ (Numeric countries c).isSome ∧
  (StringNumeric countries c).isSome ∧ (Name countries c).isSome

/-- Key uniqueness of a table: the alpha2 codes, the alpha3 codes and the numeric codes of
its rows are each pairwise distinct.  Decidable on any concrete table. -/
def keysUnique (countries : List country) : Prop :=
  (countries.map (fun r => r.alpha2)).Nodup ∧ (countries.map (fun r => r.alpha3)).Nodup ∧
  (countries.map (fun r => r.numeric)).Nodup

instance (countries : List country) : Decidable (keysUnique countries) := by
  unfold keysUnique; infer_instance

/-! ## Vocabulary of the statements about numeric text -/

/-- The character is one of the ASCII digits `'0'` to `'9'`. -/
def isDigit (c : Char) : Prop := 48 ≤ c.toNat ∧ c.toNat ≤ 57

instance (c : Char) : Decidable (isDigit c) := by unfold isDigit; infer_instance

/-- The value of a string of ASCII digits read in base 10, continuing from `acc`. -/
def decValFrom (acc : Nat) (cs : List Char) : Nat :=
  cs.foldl (fun n c => n * 10 + (c.toNat - 48)) acc

/-- The value of a string of ASCII digits read in base 10. -/
def decVal (cs : List Char) : Nat := decValFrom 0 cs

/-- The text starts with a minus sign. -/
def hasMinus (s : String) : Prop := s.data.head? = some '-'

instance (s : String) : Decidable (hasMinus s) := by unfold hasMinus; infer_instance

/-- The characters of the text after one leading `'+'` or `'-'`, when there is one. -/
def unsignedPart (s : String) : List Char :=
  if s.data.head? = some '+' ∨ s.data.head? = some '-' then s.data.tail else s.data

/-- The text prefixed with `k` characters `'0'`. -/
def zeroPrefixed (k : Nat) (s : String) : String := ⟨List.replicate k '0' ++ s.data⟩

/-- A small table used in the worked examples. -/
def sampleTable : List country :=
  [ ⟨"AF", "AFG", 4, "Afghanistan"⟩,
    ⟨"DE", "DEU", 276, "Germany"⟩,
    ⟨"JP", "JPN", 392, "Japan"⟩,
    ⟨"US", "USA", 840, "United States"⟩ ]

/-- A table in which two rows share their alpha2 code and their numeric code. -/
def duplicateTable : List country :=
  [ ⟨"AA", "AAA", 1, "Zeroth"⟩,
    ⟨"BB", "BB1", 3, "First"⟩,
    ⟨"BB", "BB2", 3, "Second"⟩ ]

/-- A table of 65537 rows: 65536 rows coded "AA" followed by one row coded "ZZ". -/
def oversizedTable : List country :=
  List.replicate 65536 ⟨"AA", "AAA", 1, "A"⟩ ++ [⟨"ZZ", "ZZZ", 2, "Z"⟩]

/-! ## The scan finds the first matching row -/

theorem rangeFind_eq_none (p : country → Bool) (l : List country) (c : Nat) :
    rangeFind p l c = none ↔ ∀ r ∈ l, p r = false := by
  induction l generalizing c with
  | nil => simp [rangeFind]
  | cons a l ih =>
    by_cases ha : p a = true
    · simp [rangeFind, ha]
    · simp [rangeFind, ha, ih]

theorem rangeFind_eq_some (p : country → Bool) (l : List country) (c j : Nat) :
    rangeFind p l c = some j ↔
      ∃ i r, j = c + i ∧ l[i]? = some r ∧ p r = true ∧
        ∀ k r', k < i → l[k]? = some r' → p r' = false := by
  induction l generalizing c with
  | nil => simp [rangeFind]
  | cons a l ih =>
    by_cases ha : p a = true
    · simp only [rangeFind, ha, if_true, Option.some.injEq]
      constructor
      · intro h
        exact ⟨0, a, by omega, by simp, ha, by intro k r' hk; omega⟩
      · rintro ⟨i, r, hj, hi, hr, hmin⟩
        cases i with
        | zero => omega
        | succ i =>
          have := hmin 0 a (by omega) (by simp)
          simp [ha] at this
    · have ha' : p a = false := by simpa using ha
      simp only [rangeFind, ha', Bool.false_eq_true, if_false, ih]
      constructor
      · rintro ⟨i, r, hj, hi, hr, hmin⟩
        refine ⟨i + 1, r, by omega, by simpa using hi, hr, ?_⟩
        intro k r' hk hk'
        cases k with
        | zero => simp at hk'; subst hk'; exact ha'
        | succ k => exact hmin k r' (by omega) (by simpa using hk')
      · rintro ⟨i, r, hj, hi, hr, hmin⟩
        cases i with
        | zero => simp at hi; subst hi; simp [ha'] at hr
        | succ i =>
          refine ⟨i, r, by omega, by simpa using hi, hr, ?_⟩
          intro k r' hk hk'
          exact hmin (k + 1) r' (by omega) (by simpa using hk')

/-- When some row satisfies `p`, the scan returns the smallest index of such a row. -/
theorem rangeFind_of_mem (p : country → Bool) (l : List country)
    (h : ∃ r ∈ l, p r = true) :
    ∃ i r, rangeFind p l 0 = some i ∧ l[i]? = some r ∧ p r = true ∧
      ∀ k r', k < i → l[k]? = some r' → p r' = false := by
  cases hf : rangeFind p l 0 with
  | none =>
    rw [rangeFind_eq_none] at hf
    obtain ⟨r, hr, hp⟩ := h
    simp [hf r hr] at hp
  | some j =>
    obtain ⟨i, r, hj, hi, hr, hmin⟩ := (rangeFind_eq_some p l 0 j).1 hf
    exact ⟨i, r, by simp [hj], hi, hr, hmin⟩

/-- With pairwise distinct keys, the scan for the key of row `i` returns `i`. -/
theorem rangeFind_of_nodup {κ : Type} [DecidableEq κ] (key : country → κ) (l : List country)
    (hnd : (l.map key).Nodup) (i : Nat) (r : country) (hi : l[i]? = some r) :
    rangeFind (fun x => key x == key r) l 0 = some i := by
  rw [rangeFind_eq_some]
  refine ⟨i, r, by omega, hi, by simp, ?_⟩
  intro k r' hk hk'
  by_contra hne
  have hkey : key r' = key r := by simpa using hne
  have hil : i < l.length := (List.getElem?_eq_some.1 hi).1
  have hkl : k < l.length := (List.getElem?_eq_some.1 hk').1
  have h1 : (l.map key)[k]? = some (key r') := by simp [hk']
  have h2 : (l.map key)[i]? = some (key r) := by simp [hi]
  have hki : k = i := by
    have := (List.nodup_iff_getElem?_ne_getElem?.1 hnd) k i hk (by simpa using hil)
    rw [h1, h2, hkey] at this
    exact absurd rfl this
  omega

/-- The scan over `n` non-matching rows followed by a matching one stops at index `n`. -/
theorem rangeFind_replicate_append (p : country → Bool) (a b : country) (n c : Nat)
    (ha : p a = false) (hb : p b = true) :
    rangeFind p (List.replicate n a ++ [b]) c = some (c + n) := by
  induction n generalizing c with
  | zero => simp [rangeFind, hb]
  | succ n ih =>
    rw [List.replicate_succ, List.cons_append, rangeFind, if_neg (by simp [ha]), ih]
    congr 1; omega

theorem getElem?_zero_replicate_append (a : country) (l : List country) (n : Nat)
    (hn : 0 < n) : (List.replicate n a ++ l)[0]? = some a := by
  cases n with
  | zero => omega
  | succ n => simp [List.replicate_succ]

/-! ## Bytes of ASCII text -/

theorem char_toNat_lt (c : Char) : c.toNat < 1114112 := by
  unfold Char.toNat
  rcases c.valid with h | h
  · omega
  · omega

theorem char_eq_of_toNat (c : Char) (n : Nat) (h : c.toNat = n) : c = Char.ofNat n := by
  rw [← h, Char.ofNat_toNat]

theorem utf8Bytes_ascii (c : Char) (h : c.toNat ≤ 127) : utf8Bytes c = [c.toNat] := by
  simp [utf8Bytes, h]

/-- Every byte of an encoded character is a byte, and the first one is the character itself
when it is ASCII and at least `0xc0` otherwise. -/
theorem utf8Bytes_spec (c : Char) :
    (∀ b ∈ utf8Bytes c, b < 256) ∧
    ∃ b bs, utf8Bytes c = b :: bs ∧ ((c.toNat ≤ 127 ∧ b = c.toNat ∧ bs = []) ∨
      (127 < c.toNat ∧ 192 ≤ b)) := by
  have hlt := char_toNat_lt c
  unfold utf8Bytes
  simp only
  split_ifs with h1 h2 h3
  · exact ⟨by simp; omega, _, _, rfl, Or.inl ⟨h1, rfl, rfl⟩⟩
  · exact ⟨by simp; omega, _, _, rfl, Or.inr ⟨by omega, by omega⟩⟩
  · exact ⟨by simp; omega, _, _, rfl, Or.inr ⟨by omega, by omega⟩⟩
  · exact ⟨by simp; omega, _, _, rfl, Or.inr ⟨by omega, by omega⟩⟩

theorem strBytes_cons (c : Char) (cs : List Char) :
    strBytes ⟨c :: cs⟩ = utf8Bytes c ++ strBytes ⟨cs⟩ := by
  simp [strBytes]

theorem strBytes_nil : strBytes ⟨[]⟩ = [] := rfl

theorem strBytes_lt (s : String) : ∀ b ∈ strBytes s, b < 256 := by
  intro b hb
  simp only [strBytes, List.mem_flatMap] at hb
  obtain ⟨c, _, hc⟩ := hb
  exact (utf8Bytes_spec c).1 b hc

theorem strBytes_digits (cs : List Char) (h : ∀ c ∈ cs, isDigit c) :
    strBytes ⟨cs⟩ = cs.map Char.toNat := by
  induction cs with
  | nil => rfl
  | cons c cs ih =>
    have hc : isDigit c := h c (by simp)
    rw [strBytes_cons, ih (fun x hx => h x (by simp [hx])),
      utf8Bytes_ascii c (by unfold isDigit at hc; omega)]
    rfl

theorem len_digits (cs : List Char) (h : ∀ c ∈ cs, isDigit c) : len ⟨cs⟩ = cs.length := by
  simp [len, strBytes_digits cs h]

/-- The first byte of a text is the byte `n` of an ASCII character exactly when the text
starts with that character. -/
theorem strBytes_head (s : String) (n : Nat) (hn : n ≤ 127) :
    (strBytes s).head? = some n ↔ s.data.head? = some (Char.ofNat n) := by
  obtain ⟨cs⟩ := s
  cases cs with
  | nil => simp [strBytes]
  | cons c cs =>
    obtain ⟨_, b, bs, hb, hcase⟩ := utf8Bytes_spec c
    simp only [strBytes_cons, hb, List.cons_append, List.head?_cons, Option.some.injEq]
    constructor
    · intro h
      rcases hcase with ⟨_, hbc, _⟩ | ⟨_, hge⟩
      · exact char_eq_of_toNat c n (by omega)
      · omega
    · intro h
      subst h
      rcases hcase with ⟨_, hbc, _⟩ | ⟨hgt, _⟩
      · rw [hbc]
        have hv : n.isValidChar := by unfold Nat.isValidChar; omega
        simp [Char.toNat, Char.ofNat, hv, Char.ofNatAux, UInt32.toNat]
      · exfalso
        have hv : n.isValidChar := by unfold Nat.isValidChar; omega
        simp [Char.toNat, Char.ofNat, hv, Char.ofNatAux, UInt32.toNat] at hgt
        omega

/-! ## Decimal values -/

theorem decValFrom_cons (n : Nat) (c : Char) (cs : List Char) :
    decValFrom n (c :: cs) = decValFrom (n * 10 + (c.toNat - 48)) cs := rfl

theorem le_decValFrom (n : Nat) (cs : List Char) : n ≤ decValFrom n cs := by
  induction cs generalizing n with
  | nil => exact Nat.le_refl n
  | cons c cs ih =>
    rw [decValFrom_cons]
    exact Nat.le_trans (by omega) (ih _)

theorem decValFrom_zeros (k : Nat) (cs : List Char) :
    decValFrom 0 (List.replicate k '0' ++ cs) = decValFrom 0 cs := by
  induction k with
  | zero => rfl
  | succ k ih =>
    rw [List.replicate_succ, List.cons_append, decValFrom_cons]
    exact ih

/-- A string of `k` digits is worth less than `10 ^ k` more than `acc * 10 ^ k`. -/
theorem decValFrom_lt (n : Nat) (cs : List Char) (h : ∀ c ∈ cs, isDigit c) :
    decValFrom n cs < (n + 1) * 10 ^ cs.length := by
  induction cs generalizing n with
  | nil => simp [decValFrom]
  | cons c cs ih =>
    have hc : isDigit c := h c (by simp)
    unfold isDigit at hc
    rw [decValFrom_cons, List.length_cons, pow_succ]
    have := ih (n * 10 + (c.toNat - 48)) (fun x hx => h x (by simp [hx]))
    have h2 : (n * 10 + (c.toNat - 48) + 1) * 10 ^ cs.length ≤
        ((n + 1) * 10) * 10 ^ cs.length :=
      Nat.mul_le_mul_right _ (by omega)
    calc decValFrom (n * 10 + (c.toNat - 48)) cs
        < (n * 10 + (c.toNat - 48) + 1) * 10 ^ cs.length := this
      _ ≤ ((n + 1) * 10) * 10 ^ cs.length := h2
      _ = (n + 1) * (10 ^ cs.length * 10) := by ring

/-! ## `Atoi` on digit strings -/

theorem wrapInt_of_lt (w : Nat) (hw : 1 ≤ w) (v : Int) (h0 : -(2 ^ (w - 1)) ≤ v)
    (h1 : v < 2 ^ (w - 1)) : wrapInt w v = v := by
  have hpow : (2 : Int) ^ w = 2 * 2 ^ (w - 1) := by
    have : w = (w - 1) + 1 := by omega
    conv_lhs => rw [this, pow_succ]
    ring
  unfold wrapInt
  rw [Int.emod_eq_of_lt (by omega) (by omega)]
  omega

theorem atoiFastLoop_digits (w : Nat) (hw : 1 ≤ w) (cs : List Char) (n : Nat)
    (hd : ∀ c ∈ cs, isDigit c) (hfit : decValFrom n cs < 2 ^ (w - 1)) :
    atoiFastLoop w (cs.map Char.toNat) (n : Int) = some (decValFrom n cs : Int) := by
  induction cs generalizing n with
  | nil => rfl
  | cons c cs ih =>
    have hc : isDigit c := hd c (by simp)
    unfold isDigit at hc
    rw [decValFrom_cons] at hfit ⊢
    have hle := le_decValFrom (n * 10 + (c.toNat - 48)) cs
    have hch : (c.toNat + 256 - 48) % 256 = c.toNat - 48 := by omega
    simp only [List.map_cons, atoiFastLoop, hch]
    rw [if_neg (by omega)]
    have hcast : ((n : Int) * 10 + ((c.toNat - 48 : Nat) : Int)) =
        ((n * 10 + (c.toNat - 48) : Nat) : Int) := by push_cast; ring
    rw [hcast, wrapInt_of_lt w hw _ (by
      have : (0 : Int) ≤ ((n * 10 + (c.toNat - 48) : Nat) : Int) := Int.ofNat_nonneg _
      have : (0 : Int) < 2 ^ (w - 1) := by positivity
      omega) (by exact_mod_cast Nat.lt_of_le_of_lt hle hfit)]
    exact ih _ (fun x hx => hd x (by simp [hx])) hfit

/-- The digit loop of `ParseUint` on a string of digits: the value when it is at most
`maxVal`, the range error otherwise. -/
theorem parseUintLoop_digits (s0 : String) (maxVal : Nat) (hmax : maxVal < 2 ^ 64)
    (cs : List Char) (n : Nat) (hd : ∀ c ∈ cs, isDigit c) :
    parseUintLoop s0 maxVal (cs.map Char.toNat) n =
      if decValFrom n cs ≤ maxVal ∨ cs = [] then (decValFrom n cs, none)
      else (maxVal, some (rangeError "ParseUint" s0)) := by
  induction cs generalizing n with
  | nil => simp [parseUintLoop, decValFrom]
  | cons c cs ih =>
    have hc : isDigit c := hd c (by simp)
    unfold isDigit at hc
    have hle := le_decValFrom (n * 10 + (c.toNat - 48)) cs
    rw [decValFrom_cons]
    simp only [List.map_cons, parseUintLoop, maxUint64]
    rw [if_pos hc, if_neg (by omega)]
    by_cases hcut : n ≥ (2 ^ 64 - 1) / 10 + 1
    · rw [if_pos hcut, if_neg (by simp; omega)]
    · rw [if_neg hcut]
      have h10 : n * 10 % 2 ^ 64 = n * 10 := Nat.mod_eq_of_lt (by omega)
      simp only [h10]
      by_cases hov : n * 10 + (c.toNat - 48) < 2 ^ 64
      · rw [Nat.mod_eq_of_lt hov]
        by_cases hm : n * 10 + (c.toNat - 48) > maxVal
        · rw [if_pos (Or.inr hm), if_neg (by simp; omega)]
        · rw [if_neg (by omega), ih _ (fun x hx => hd x (by simp [hx]))]
          by_cases hfin : decValFrom (n * 10 + (c.toNat - 48)) cs ≤ maxVal
          · simp [hfin]
          · cases cs with
            | nil => simp [decValFrom] at hfin ⊢; omega
            | cons c' cs' => simp [hfin]
      · rw [if_pos (Or.inl (by omega)), if_neg (by simp; omega)]

theorem strBytes_head_digits (c : Char) (cs : List Char) (hd : ∀ x ∈ c :: cs, isDigit x) :
    (strBytes ⟨c :: cs⟩).head? = some c.toNat ∧ 48 ≤ c.toNat ∧ c.toNat ≤ 57 := by
  have hc : isDigit c := hd c (by simp)
  unfold isDigit at hc
  rw [strBytes_digits _ hd]
  exact ⟨rfl, hc⟩

theorem maxVal_eq (w : Nat) (hw : w = 32 ∨ w = 64) :
    (2 ^ w % 2 ^ 64 + 2 ^ 64 - 1) % 2 ^ 64 = 2 ^ w - 1 := by
  rcases hw with rfl | rfl <;> norm_num

theorem cutoff_eq (w : Nat) (hw : w = 32 ∨ w = 64) :
    2 ^ (w - 1) % 2 ^ 64 = 2 ^ (w - 1) := by
  rcases hw with rfl | rfl <;> norm_num

theorem pow_facts (w : Nat) (hw : w = 32 ∨ w = 64) :
    2 ^ (w - 1) < 2 ^ w - 1 ∧ 2 ^ w - 1 < 2 ^ 64 := by
  rcases hw with rfl | rfl <;> norm_num

theorem mk_cons_ne_empty (c : Char) (cs : List Char) : (String.mk (c :: cs)) ≠ "" := by
  intro h
  have := congrArg String.data h
  simp at this

/-- The result of `ParseUint` on a non-empty string of digits. -/
theorem ParseUint_digits (w : Nat) (hw : w = 32 ∨ w = 64) (c : Char) (cs : List Char)
    (hd : ∀ x ∈ c :: cs, isDigit x) :
    ParseUint w ⟨c :: cs⟩ =
      if decVal (c :: cs) ≤ 2 ^ w - 1 then (decVal (c :: cs), none)
      else (2 ^ w - 1, some (rangeError "ParseUint" ⟨c :: cs⟩)) := by
  unfold ParseUint
  rw [if_neg (mk_cons_ne_empty c cs)]
  simp only [maxVal_eq w hw]
  rw [strBytes_digits _ hd, parseUintLoop_digits _ _ (pow_facts w hw).2 _ _ hd]
  simp [decVal]

/-- The result of `ParseInt` on a non-empty string of digits whose value fits a signed
`w`-bit integer. -/
theorem ParseInt_digits (w : Nat) (hw : w = 32 ∨ w = 64) (c : Char) (cs : List Char)
    (hd : ∀ x ∈ c :: cs, isDigit x) (hfit : decVal (c :: cs) < 2 ^ (w - 1)) :
    ParseInt w ⟨c :: cs⟩ = ((decVal (c :: cs) : Int), none) := by
  obtain ⟨hh, h48, h57⟩ := strBytes_head_digits c cs hd
  have h43 : ¬ (strBytes ⟨c :: cs⟩).head? = some 43 := by rw [hh]; simp; omega
  have h45 : ¬ (strBytes ⟨c :: cs⟩).head? = some 45 := by rw [hh]; simp; omega
  have hp := pow_facts w hw
  unfold ParseInt
  rw [if_neg (mk_cons_ne_empty c cs)]
  simp only [if_neg h43, if_neg h45, ParseUint_digits w hw c cs hd, cutoff_eq w hw]
  rw [if_pos (by omega)]
  simp only [h45, false_and, if_false, not_false_eq_true, true_and]
  rw [if_neg (by omega)]

/-- On a non-empty string of ASCII digits whose value fits the `int` type `Atoi` returns
that value and no error. -/
theorem Atoi_digits (w : Nat) (hw : w = 32 ∨ w = 64) (cs : List Char) (hne : cs ≠ [])
    (hd : ∀ x ∈ cs, isDigit x) (hfit : decVal cs < 2 ^ (w - 1)) :
    Atoi w ⟨cs⟩ = ((decVal cs : Int), none) := by
  obtain ⟨c, cs, rfl⟩ := List.exists_cons_of_ne_nil hne
  obtain ⟨hh, h48, h57⟩ := strBytes_head_digits c cs hd
  have h43 : ¬ (strBytes ⟨c :: cs⟩).head? = some 43 := by rw [hh]; simp; omega
  have h45 : ¬ (strBytes ⟨c :: cs⟩).head? = some 45 := by rw [hh]; simp; omega
  have hw1 : 1 ≤ w := by omega
  have hwrap : wrapInt w (decVal (c :: cs) : Int) = (decVal (c :: cs) : Int) :=
    wrapInt_of_lt w hw1 _ (by
      have : (0 : Int) ≤ (decVal (c :: cs) : Int) := Int.ofNat_nonneg _
      have : (0 : Int) < 2 ^ (w - 1) := by positivity
      omega) (by exact_mod_cast hfit)
  unfold Atoi
  simp only
  by_cases hfast : (w = 32 ∧ 0 < len ⟨c :: cs⟩ ∧ len ⟨c :: cs⟩ < 10) ∨
      (w = 64 ∧ 0 < len ⟨c :: cs⟩ ∧ len ⟨c :: cs⟩ < 19)
  · have hloop := atoiFastLoop_digits w hw1 (c :: cs) 0 hd hfit
    simp only [Nat.cast_zero] at hloop
    rw [if_pos hfast]
    simp only [h43, h45, or_self, false_and, if_false]
    rw [strBytes_digits _ hd, hloop]
    rfl
  · rw [if_neg hfast, ParseInt_digits w hw c cs hd hfit]
    simp only [hwrap]

/-! ## `Sprintf("%03d", n)` -/

theorem digitChar_toNat (d : Nat) (h : d < 10) : (digitChar d).toNat = 48 + d := by
  interval_cases d <;> rfl

theorem digitChar_isDigit (d : Nat) (h : d < 10) : isDigit (digitChar d) := by
  unfold isDigit
  rw [digitChar_toNat d h]
  omega

theorem digitChar_eq_natDigitChar (d : Nat) (h : d < 10) : digitChar d = Nat.digitChar d := by
  interval_cases d <;> rfl

theorem fmtDigits_lt_ten (u : Nat) (h : u < 10) : fmtDigits u = [digitChar u] := by
  rw [fmtDigits, if_pos h]

theorem fmtDigits_ge_ten (u : Nat) (h : 10 ≤ u) :
    fmtDigits u = fmtDigits (u / 10) ++ [digitChar (u % 10)] := by
  rw [fmtDigits, if_neg (by omega)]
  congr 3
  omega

theorem fmtDigits_length_pos (u : Nat) : 0 < (fmtDigits u).length := by
  by_cases h : u < 10
  · simp [fmtDigits_lt_ten u h]
  · simp [fmtDigits_ge_ten u (by omega)]

theorem fmtDigits_isDigit (u : Nat) : ∀ c ∈ fmtDigits u, isDigit c := by
  induction u using Nat.strong_induction_on with
  | _ u ih =>
    by_cases h : u < 10
    · rw [fmtDigits_lt_ten u h]
      intro c hc
      simp only [List.mem_singleton] at hc
      subst hc
      exact digitChar_isDigit u h
    · rw [fmtDigits_ge_ten u (by omega)]
      intro c hc
      rcases List.mem_append.1 hc with hc | hc
      · exact ih (u / 10) (by omega) c hc
      · simp only [List.mem_singleton] at hc
        subst hc
        exact digitChar_isDigit _ (by omega)

/-- The digit loop of `fmtInteger` writes the decimal representation `Nat.toDigits 10`. -/
theorem toDigitsCore_eq_fmtDigits (fuel u : Nat) (acc : List Char) (h : u < fuel) :
    Nat.toDigitsCore 10 fuel u acc = fmtDigits u ++ acc := by
  induction fuel generalizing u acc with
  | zero => omega
  | succ fuel ih =>
    simp only [Nat.toDigitsCore]
    by_cases h10 : u < 10
    · rw [if_pos (by omega), fmtDigits_lt_ten u h10,
        ← digitChar_eq_natDigitChar _ (by omega), Nat.mod_eq_of_lt h10]
      rfl
    · rw [if_neg (by omega), ih _ _ (by omega), fmtDigits_ge_ten u (by omega),
        ← digitChar_eq_natDigitChar _ (by omega)]
      simp

theorem fmtDigits_eq_repr (u : Nat) : fmtDigits u = (Nat.repr u).data := by
  simp [Nat.repr, Nat.toDigits, toDigitsCore_eq_fmtDigits (u + 1) u [] (by omega),
    List.asString]

theorem padZeros_of_le (prec : Nat) (ds : List Char) (h : prec ≤ ds.length) :
    padZeros prec ds = ds := by
  rw [padZeros, if_neg (by omega)]

/-- The padding loop puts `prec - len` zeros in front of the digits. -/
theorem padZeros_eq (prec : Nat) (ds : List Char) :
    padZeros prec ds = List.replicate (prec - ds.length) '0' ++ ds := by
  generalize hk : prec - ds.length = k
  induction k generalizing ds with
  | zero => rw [padZeros_of_le prec ds (by omega)]; rfl
  | succ k ih =>
    rw [padZeros, if_pos (by omega), ih ('0' :: ds) (by simp only [List.length_cons]; omega),
      List.replicate_succ']
    simp

/-- The three decimal digits of a number below 1000, hundreds first. -/
theorem sprintf03d_small (n : Nat) (h : n ≤ 999) :
    sprintf03d (n : Int) =
      ⟨[digitChar (n / 100), digitChar (n / 10 % 10), digitChar (n % 10)]⟩ := by
  unfold sprintf03d
  rw [if_neg (by omega), Int.natAbs_ofNat, padZeros_eq]
  by_cases h1 : n < 10
  · rw [fmtDigits_lt_ten n h1]
    have e1 : n / 100 = 0 := by omega
    have e2 : n / 10 % 10 = 0 := by omega
    have e3 : n % 10 = n := by omega
    rw [e1, e2, e3]
    rfl
  · by_cases h2 : n < 100
    · rw [fmtDigits_ge_ten n (by omega), fmtDigits_lt_ten (n / 10) (by omega)]
      have e1 : n / 100 = 0 := by omega
      have e2 : n / 10 % 10 = n / 10 := by omega
      rw [e1, e2]
      rfl
    · rw [fmtDigits_ge_ten n (by omega), fmtDigits_ge_ten (n / 10) (by omega),
        fmtDigits_lt_ten (n / 10 / 10) (by omega)]
      have e1 : n / 10 / 10 = n / 100 := by omega
      rw [e1]
      rfl

theorem decVal_three (a b c : Nat) (ha : a < 10) (hb : b < 10) (hc : c < 10) :
    decVal [digitChar a, digitChar b, digitChar c] = a * 100 + b * 10 + c := by
  simp only [decVal, decValFrom, List.foldl, digitChar_toNat a ha, digitChar_toNat b hb,
    digitChar_toNat c hc]
  omega

/-- A number of at least four digits is rendered unpadded, in more than three bytes (and
characters). -/
theorem sprintf03d_large (n : Int) (h : 1000 ≤ n) :
    3 < len (sprintf03d n) ∧ 3 < (sprintf03d n).length := by
  unfold sprintf03d
  rw [if_neg (by omega)]
  have hu : 1000 ≤ n.natAbs := by omega
  have hl : 4 ≤ (fmtDigits n.natAbs).length := by
    rw [fmtDigits_ge_ten _ (by omega), fmtDigits_ge_ten _ (by omega),
      fmtDigits_ge_ten _ (by omega)]
    have := fmtDigits_length_pos (n.natAbs / 10 / 10 / 10)
    simp only [List.length_append, List.length_singleton]
    omega
  rw [padZeros_of_le _ _ (by omega), len_digits _ (fmtDigits_isDigit _)]
  exact ⟨by omega, by simp only [String.length]; omega⟩

/-! ## Numeric lookup -/

theorem FromNumeric_of_error (quote : String → String) (w : Nat) (countries : List country)
    (text : String) (n : Int) (err : NumError) (h : Atoi w text = (n, some err)) :
    FromNumeric quote w countries text = (0, some ⟨err.Error quote⟩) := by
  simp [FromNumeric, h]

theorem FromNumeric_some (quote : String → String) (w : Nat) (countries : List country)
    (text : String) (n : Int) (i : Nat) (h : Atoi w text = (n, none))
    (hf : rangeFind (fun r => r.numeric == n) countries 0 = some i) :
    FromNumeric quote w countries text = (toCountry i, none) := by
  simp [FromNumeric, h, hf]

theorem FromNumeric_none (quote : String → String) (w : Nat) (countries : List country)
    (text : String) (n : Int) (h : Atoi w text = (n, none))
    (hf : rangeFind (fun r => r.numeric == n) countries 0 = none) :
    FromNumeric quote w countries text =
      (0, some ⟨"no country exists with numeric-code " ++ text⟩) := by
  simp [FromNumeric, h, hf]

/-- Reading back: `Atoi` on the three-digit rendering of a number between 0 and 999. -/
theorem Atoi_sprintf03d (w : Nat) (hw : w = 32 ∨ w = 64) (n : Int) (h0 : 0 ≤ n)
    (h1 : n ≤ 999) : Atoi w (sprintf03d n) = (n, none) := by
  obtain ⟨m, rfl⟩ := Int.eq_ofNat_of_zero_le h0
  have hm : m ≤ 999 := by omega
  rw [sprintf03d_small m hm]
  have hv := decVal_three (m / 100) (m / 10 % 10) (m % 10) (by omega) (by omega) (by omega)
  have hd : ∀ x ∈ [digitChar (m / 100), digitChar (m / 10 % 10), digitChar (m % 10)],
      isDigit x := by
    intro x hx
    simp only [List.mem_cons, List.mem_singleton, List.not_mem_nil, or_false] at hx
    rcases hx with rfl | rfl | rfl <;> exact digitChar_isDigit _ (by omega)
  have hval : decVal [digitChar (m / 100), digitChar (m / 10 % 10), digitChar (m % 10)]
      = m := by omega
  have hfit : decVal [digitChar (m / 100), digitChar (m / 10 % 10), digitChar (m % 10)]
      < 2 ^ (w - 1) := by
    rw [hval]
    rcases hw with rfl | rfl <;> norm_num <;> omega
  rw [Atoi_digits w hw _ (by simp) hd hfit, hval]

/-! ## Parse failures -/

/-- An error of `ParseInt` names the whole input text. -/
theorem ParseInt_error_num (w : Nat) (s : String) (n : Int) (e : NumError)
    (h : ParseInt w s = (n, some e)) : e.Num = s := by
  unfold ParseInt at h
  split_ifs at h with h0
  · simp only [syntaxError, Prod.mk.injEq, Option.some.injEq] at h
    rw [← h.2]
  · simp only at h
    split at h
    · split_ifs at h <;>
        simp only [rangeError, Prod.mk.injEq, Option.some.injEq, reduceCtorEq, and_false] at h <;>
        rw [← h.2]
    · split_ifs at h <;>
        simp only [rangeError, Prod.mk.injEq, Option.some.injEq, reduceCtorEq, and_false] at h <;>
        rw [← h.2]

/-- An error of `Atoi` is a `NumError` of function "Atoi" that names the whole input text. -/
theorem Atoi_error_fields (w : Nat) (s : String) (n : Int) (e : NumError)
    (h : Atoi w s = (n, some e)) : e.Func = "Atoi" ∧ e.Num = s := by
  unfold Atoi at h
  simp only at h
  by_cases hfast : (w = 32 ∧ 0 < len s ∧ len s < 10) ∨ (w = 64 ∧ 0 < len s ∧ len s < 19)
  · rw [if_pos hfast] at h
    split_ifs at h <;> (try split at h) <;>
      simp only [syntaxError, Prod.mk.injEq, Option.some.injEq, reduceCtorEq, and_false] at h <;>
      (rw [← h.2]; exact ⟨rfl, rfl⟩)
  · rw [if_neg hfast] at h
    split at h
    · rename_i i64 nerr hP
      simp only [Prod.mk.injEq, Option.some.injEq] at h
      rw [← h.2]
      exact ⟨rfl, ParseInt_error_num w s i64 nerr hP⟩
    · simp only [Prod.mk.injEq, reduceCtorEq, and_false] at h

/-- The text of an `Atoi` error. -/
theorem NumError_text (quote : String → String) (e : NumError) (s : String)
    (hf : e.Func = "Atoi") (hn : e.Num = s) :
    e.Error quote = "strconv.Atoi: parsing " ++ quote s ++ ": " ++ e.Err.Error := by
  unfold NumError.Error
  rw [hf, hn]
  apply String.ext
  simp [String.data_append]

/-- A text that starts with "iso3166: strconv." is not a not-found message. -/
theorem parse_text_ne_not_found (x codeText : String) :
    "iso3166: " ++ ("strconv." ++ x) ≠
      "iso3166: no country exists with numeric-code " ++ codeText := by
  intro h
  have h2 := congrArg String.data h
  simp [String.data_append] at h2

/-! ## `Atoi` on malformed and overflowing text -/

theorem strBytes_nondigit (cs : List Char) (h : ∃ c ∈ cs, ¬ isDigit c) :
    ∃ b ∈ strBytes ⟨cs⟩, ¬ (48 ≤ b ∧ b ≤ 57) := by
  obtain ⟨c, hc, hnd⟩ := h
  obtain ⟨_, b, bs, hb, hcase⟩ := utf8Bytes_spec c
  refine ⟨b, ?_, ?_⟩
  · simp only [strBytes, List.mem_flatMap]
    exact ⟨c, hc, by rw [hb]; simp⟩
  · unfold isDigit at hnd
    rcases hcase with ⟨_, hbc, _⟩ | ⟨_, hge⟩
    · rw [hbc]; exact hnd
    · omega

theorem atoiFastLoop_nondigit (w : Nat) (bs : List Nat) (n : Int)
    (hlt : ∀ b ∈ bs, b < 256) (h : ∃ b ∈ bs, ¬ (48 ≤ b ∧ b ≤ 57)) :
    atoiFastLoop w bs n = none := by
  induction bs generalizing n with
  | nil => simp at h
  | cons b bs ih =>
    have hb : b < 256 := hlt b (by simp)
    simp only [atoiFastLoop]
    by_cases hd : 48 ≤ b ∧ b ≤ 57
    · rw [if_neg (by omega)]
      apply ih _ (fun x hx => hlt x (by simp [hx]))
      obtain ⟨x, hx, hxd⟩ := h
      rcases List.mem_cons.1 hx with rfl | hx
      · exact absurd hd hxd
      · exact ⟨x, hx, hxd⟩
    · rw [if_pos (by omega)]

/-- The digit loop of `ParseUint` on a text with a byte that is no digit ends in one of its
two errors. -/
theorem parseUintLoop_nondigit (s0 : String) (maxVal : Nat) (bs : List Nat) (n : Nat)
    (h : ∃ b ∈ bs, ¬ (48 ≤ b ∧ b ≤ 57)) :
    parseUintLoop s0 maxVal bs n = (0, some (syntaxError "ParseUint" s0)) ∨
    parseUintLoop s0 maxVal bs n = (maxVal, some (rangeError "ParseUint" s0)) := by
  induction bs generalizing n with
  | nil => simp at h
  | cons b bs ih =>
    simp only [parseUintLoop]
    by_cases hd : 48 ≤ b ∧ b ≤ 57
    · rw [if_pos hd, if_neg (by omega)]
      split_ifs
      · exact Or.inr rfl
      · exact Or.inr rfl
      · apply ih
        obtain ⟨x, hx, hxd⟩ := h
        rcases List.mem_cons.1 hx with rfl | hx
        · exact absurd hd hxd
        · exact ⟨x, hx, hxd⟩
    · rw [if_neg hd]
      split_ifs <;> exact Or.inl rfl

/-- The text the parsers go on with after the sign is the unsigned part. -/
theorem signed_iff (s : String) :
    ((strBytes s).head? = some 43 ↔ s.data.head? = some '+') ∧
    ((strBytes s).head? = some 45 ↔ s.data.head? = some '-') :=
  ⟨strBytes_head s 43 (by omega), strBytes_head s 45 (by omega)⟩

theorem dropFirst_eq (s : String)
    (h : s.data.head? = some '+' ∨ s.data.head? = some '-') :
    dropFirst s = ⟨unsignedPart s⟩ := by
  simp [dropFirst, unsignedPart, h]

theorem self_eq_unsigned (s : String)
    (h : ¬ (s.data.head? = some '+' ∨ s.data.head? = some '-')) :
    s = ⟨unsignedPart s⟩ := by
  simp [unsignedPart, h]

theorem len_nil : len ⟨[]⟩ = 0 := rfl

/-- The text has at least as many bytes as its unsigned part. -/
theorem len_unsigned_le (s : String) : len ⟨unsignedPart s⟩ ≤ len s := by
  obtain ⟨cs⟩ := s
  unfold unsignedPart
  split_ifs with h
  · cases cs with
    | nil => simp
    | cons c cs =>
      simp only [List.tail_cons, len, strBytes_cons, List.length_append]
      omega
  · exact Nat.le_refl _

theorem mk_ne_empty (cs : List Char) (h : cs ≠ []) : (String.mk cs) ≠ "" := by
  obtain ⟨c, cs, rfl⟩ := List.exists_cons_of_ne_nil h
  exact mk_cons_ne_empty c cs

/-- The result of `ParseUint` on an empty text or a text with a character that is no
digit. -/
theorem ParseUint_malformed (w : Nat) (hw : w = 32 ∨ w = 64) (body : List Char)
    (h : body = [] ∨ ∃ c ∈ body, ¬ isDigit c) :
    ParseUint w ⟨body⟩ = (0, some (syntaxError "ParseUint" ⟨body⟩)) ∨
    ParseUint w ⟨body⟩ = (2 ^ w - 1, some (rangeError "ParseUint" ⟨body⟩)) := by
  unfold ParseUint
  rcases h with rfl | h
  · left; rfl
  · have hne : body ≠ [] := by
      obtain ⟨c, hc, _⟩ := h
      exact List.ne_nil_of_mem hc
    rw [if_neg (mk_ne_empty body hne)]
    simp only [maxVal_eq w hw]
    exact parseUintLoop_nondigit _ _ _ _ (strBytes_nondigit body h)

/-- The text `ParseInt` hands to `ParseUint` is the unsigned part. -/
theorem ParseInt_rest (s : String) :
    (if (strBytes s).head? = some 43 then dropFirst s
      else if (strBytes s).head? = some 45 then dropFirst s else s) =
      ⟨unsignedPart s⟩ := by
  simp only [(signed_iff s).1, (signed_iff s).2]
  by_cases hp : s.data.head? = some '+'
  · rw [if_pos hp, dropFirst_eq s (Or.inl hp)]
  · rw [if_neg hp]
    by_cases hm : s.data.head? = some '-'
    · rw [if_pos hm, dropFirst_eq s (Or.inr hm)]
    · rw [if_neg hm]
      exact self_eq_unsigned s (by simp [hp, hm])

/-- Failure of `ParseInt` when `ParseUint` fails on the unsigned part. -/
theorem ParseInt_of_ParseUint_error (w : Nat) (hw : w = 32 ∨ w = 64) (s : String)
    (hs : s ≠ "")
    (h : ParseUint w ⟨unsignedPart s⟩ =
        (0, some (syntaxError "ParseUint" ⟨unsignedPart s⟩)) ∨
      ParseUint w ⟨unsignedPart s⟩ =
        (2 ^ w - 1, some (rangeError "ParseUint" ⟨unsignedPart s⟩))) :
    ∃ n e, ParseInt w s = (n, some e) := by
  have hp := pow_facts w hw
  unfold ParseInt
  rw [if_neg hs]
  simp only [ParseInt_rest s, cutoff_eq w hw]
  rcases h with h | h
  · rw [h]
    exact ⟨0, ⟨"ParseInt", s, ParseErr.ErrSyntax⟩, by simp [syntaxError]⟩
  · rw [h]
    simp only [rangeError, ne_eq, not_true_eq_false, if_false]
    by_cases hneg : (strBytes s).head? = some 45
    · rw [if_neg (by simp [hneg]), if_pos ⟨hneg, by omega⟩]
      exact ⟨_, _, rfl⟩
    · rw [if_pos ⟨hneg, by omega⟩]
      exact ⟨_, _, rfl⟩

/-- Failure of `ParseInt` on a signed or unsigned digit string whose value is out of
range. -/
theorem ParseInt_overflow (w : Nat) (hw : w = 32 ∨ w = 64) (s : String) (hs : s ≠ "")
    (hne : unsignedPart s ≠ []) (hd : ∀ x ∈ unsignedPart s, isDigit x)
    (hov : (¬ hasMinus s ∧ 2 ^ (w - 1) ≤ decVal (unsignedPart s)) ∨
      (hasMinus s ∧ 2 ^ (w - 1) < decVal (unsignedPart s))) :
    ∃ n e, ParseInt w s = (n, some e) := by
  obtain ⟨c, cs, hbody⟩ := List.exists_cons_of_ne_nil hne
  rw [hbody] at hd hov
  have hU := ParseUint_digits w hw c cs hd
  by_cases hfit : decVal (c :: cs) ≤ 2 ^ w - 1
  · rw [if_pos hfit] at hU
    unfold ParseInt
    rw [if_neg hs]
    simp only [ParseInt_rest s, cutoff_eq w hw, hbody, hU]
    have hm : (strBytes s).head? = some 45 ↔ hasMinus s := (signed_iff s).2
    by_cases hneg : (strBytes s).head? = some 45
    · have hov' : 2 ^ (w - 1) < decVal (c :: cs) := by
        rcases hov with ⟨h1, _⟩ | ⟨_, h2⟩
        · exact absurd (hm.1 hneg) h1
        · exact h2
      rw [if_neg (by simp [hneg]), if_pos ⟨hneg, hov'⟩]
      exact ⟨_, _, rfl⟩
    · have hov' : 2 ^ (w - 1) ≤ decVal (c :: cs) := by
        rcases hov with ⟨_, h1⟩ | ⟨h2, _⟩
        · exact h1
        · exact absurd (hm.2 h2) hneg
      rw [if_pos ⟨hneg, hov'⟩]
      exact ⟨_, _, rfl⟩
  · rw [if_neg hfit] at hU
    exact ParseInt_of_ParseUint_error w hw s hs (by rw [hbody]; exact Or.inr hU)

/-- Failure of `Atoi` on every text that is not an optionally signed, non-empty string of ASCII
digits with a value in the range of the `int` type. -/
theorem Atoi_malformed (w : Nat) (hw : w = 32 ∨ w = 64) (s : String)
    (h : unsignedPart s = [] ∨ (∃ c ∈ unsignedPart s, ¬ isDigit c) ∨
      (¬ hasMinus s ∧ 2 ^ (w - 1) ≤ decVal (unsignedPart s)) ∨
      (hasMinus s ∧ 2 ^ (w - 1) < decVal (unsignedPart s))) :
    ∃ n e, Atoi w s = (n, some e) := by
  unfold Atoi
  simp only
  by_cases hfast : (w = 32 ∧ 0 < len s ∧ len s < 10) ∨ (w = 64 ∧ 0 < len s ∧ len s < 19)
  · rw [if_pos hfast]
    have hrest : (if (strBytes s).head? = some 45 ∨ (strBytes s).head? = some 43
        then dropFirst s else s) = ⟨unsignedPart s⟩ := by
      simp only [(signed_iff s).1, (signed_iff s).2]
      by_cases hsg : s.data.head? = some '-' ∨ s.data.head? = some '+'
      · rw [if_pos hsg, dropFirst_eq s hsg.symm]
      · rw [if_neg hsg]
        exact self_eq_unsigned s (fun hc => hsg hc.symm)
    simp only [hrest]
    by_cases hnd : ∃ c ∈ unsignedPart s, ¬ isDigit c
    · by_cases hshort : ((strBytes s).head? = some 45 ∨ (strBytes s).head? = some 43) ∧
          len ⟨unsignedPart s⟩ < 1
      · rw [if_pos hshort]
        exact ⟨_, _, rfl⟩
      · rw [if_neg hshort, atoiFastLoop_nondigit w _ 0 (strBytes_lt _)
          (strBytes_nondigit _ hnd)]
        exact ⟨_, _, rfl⟩
    · have hd : ∀ x ∈ unsignedPart s, isDigit x := by
        intro x hx
        by_contra hx'
        exact hnd ⟨x, hx, hx'⟩
      by_cases hempty : unsignedPart s = []
      · have hsg : (strBytes s).head? = some 45 ∨ (strBytes s).head? = some 43 := by
          by_contra hns
          have hs : s = ⟨unsignedPart s⟩ := self_eq_unsigned s (by
            simp only [(signed_iff s).1, (signed_iff s).2] at hns
            exact fun hc => hns hc.symm)
          have hl : len s = 0 := by rw [hs, hempty]; rfl
          omega
        rw [if_pos ⟨hsg, by rw [hempty]; exact Nat.lt_of_sub_eq_succ rfl⟩]
        exact ⟨_, _, rfl⟩
      · exfalso
        have hlen : (unsignedPart s).length ≤ len s := by
          rw [← len_digits _ hd]
          exact len_unsigned_le s
        have hval := decValFrom_lt 0 (unsignedPart s) hd
        have hov : 2 ^ (w - 1) ≤ decVal (unsignedPart s) := by
          rcases h with h | h | h | h
          · exact absurd h hempty
          · exact absurd h hnd
          · exact h.2
          · exact Nat.le_of_lt h.2
        unfold decVal at hov
        rw [Nat.zero_add, Nat.one_mul] at hval
        rcases hfast with ⟨rfl, _, h10⟩ | ⟨rfl, _, h19⟩
        · have : 10 ^ (unsignedPart s).length ≤ 10 ^ 9 :=
            Nat.pow_le_pow_right (by omega) (by omega)
          norm_num at hov this
          omega
        · have : 10 ^ (unsignedPart s).length ≤ 10 ^ 18 :=
            Nat.pow_le_pow_right (by omega) (by omega)
          norm_num at hov this
          omega
  · rw [if_neg hfast]
    have hP : ∃ n e, ParseInt w s = (n, some e) := by
      by_cases hs : s = ""
      · subst hs
        exact ⟨_, _, rfl⟩
      · by_cases hbad : unsignedPart s = [] ∨ ∃ c ∈ unsignedPart s, ¬ isDigit c
        · exact ParseInt_of_ParseUint_error w hw s hs (ParseUint_malformed w hw _ hbad)
        · have hne : unsignedPart s ≠ [] := fun hc => hbad (Or.inl hc)
          have hd : ∀ x ∈ unsignedPart s, isDigit x := by
            intro x hx
            by_contra hx'
            exact hbad (Or.inr ⟨x, hx, hx'⟩)
          refine ParseInt_overflow w hw s hs hne hd ?_
          rcases h with h | h | h | h
          · exact absurd h hne
          · exact absurd (Or.inr h) hbad
          · exact Or.inl h
          · exact Or.inr h
    obtain ⟨n, e, hne⟩ := hP
    rw [hne]
    exact ⟨_, _, rfl⟩

/-- The text of the error `FromNumeric` makes of an `Atoi` error: the namespaced `strconv`
message, which is not the not-found message. -/
theorem Atoi_error_text (quote : String → String) (err : NumError) (codeText : String)
    (hf : err.Func = "Atoi") (hn : err.Num = codeText) :
    (Error.mk (err.Error quote)).Error =
      "iso3166: strconv.Atoi: parsing " ++ quote codeText ++ ": " ++ err.Err.Error ∧
    (Error.mk (err.Error quote)).Error ≠
      "iso3166: no country exists with numeric-code " ++ codeText := by
  have htext := NumError_text quote err codeText hf hn
  constructor
  · simp only [Error.Error, htext]
    apply String.ext
    simp [String.data_append]
  · simp only [Error.Error, htext]
    have := parse_text_ne_not_found
      ("Atoi: parsing " ++ quote codeText ++ ": " ++ err.Err.Error) codeText
    intro h
    apply this
    rw [← h]
    apply String.ext
    simp [String.data_append]

/-! ## `Atoi` on a digit string with a plus sign -/

theorem strBytes_plus (cs : List Char) (hd : ∀ x ∈ cs, isDigit x) :
    strBytes ⟨'+' :: cs⟩ = 43 :: cs.map Char.toNat := by
  rw [strBytes_cons, strBytes_digits cs hd]
  rfl

/-- On a plus sign followed by a non-empty string of ASCII digits whose value fits the `int`
type `Atoi` returns that value and no error. -/
theorem Atoi_plus_digits (w : Nat) (hw : w = 32 ∨ w = 64) (cs : List Char) (hne : cs ≠ [])
    (hd : ∀ x ∈ cs, isDigit x) (hfit : decVal cs < 2 ^ (w - 1)) :
    Atoi w ⟨'+' :: cs⟩ = ((decVal cs : Int), none) := by
  obtain ⟨c, cs, rfl⟩ := List.exists_cons_of_ne_nil hne
  have hb := strBytes_plus (c :: cs) hd
  have hh : (strBytes ⟨'+' :: c :: cs⟩).head? = some 43 := by rw [hb]; rfl
  have h45 : ¬ (strBytes ⟨'+' :: c :: cs⟩).head? = some 45 := by rw [hh]; simp
  have hdrop : dropFirst ⟨'+' :: c :: cs⟩ = ⟨c :: cs⟩ := rfl
  have hw1 : 1 ≤ w := by omega
  have hp := pow_facts w hw
  have hwrap : wrapInt w (decVal (c :: cs) : Int) = (decVal (c :: cs) : Int) :=
    wrapInt_of_lt w hw1 _ (by
      have : (0 : Int) ≤ (decVal (c :: cs) : Int) := Int.ofNat_nonneg _
      have : (0 : Int) < 2 ^ (w - 1) := by positivity
      omega) (by exact_mod_cast hfit)
  unfold Atoi
  simp only
  by_cases hfast : (w = 32 ∧ 0 < len ⟨'+' :: c :: cs⟩ ∧ len ⟨'+' :: c :: cs⟩ < 10) ∨
      (w = 64 ∧ 0 < len ⟨'+' :: c :: cs⟩ ∧ len ⟨'+' :: c :: cs⟩ < 19)
  · have hloop := atoiFastLoop_digits w hw1 (c :: cs) 0 hd hfit
    simp only [Nat.cast_zero] at hloop
    have hlen : ¬ len ⟨c :: cs⟩ < 1 := by
      rw [len_digits _ hd]
      simp
    rw [if_pos hfast]
    simp only [hh, hdrop, Option.some.injEq, Nat.reduceEqDiff, or_true, if_true, true_and,
      if_false, hlen]
    rw [strBytes_digits _ hd, hloop]
    rfl
  · rw [if_neg hfast]
    have hP : ParseInt w ⟨'+' :: c :: cs⟩ = ((decVal (c :: cs) : Int), none) := by
      unfold ParseInt
      rw [if_neg (mk_cons_ne_empty '+' (c :: cs))]
      simp only [hh, if_true, hdrop, ParseUint_digits w hw c cs hd, cutoff_eq w hw]
      rw [if_pos (by omega)]
      simp only [Option.some.injEq, Nat.reduceEqDiff, false_and, if_false,
        not_false_eq_true, true_and]
      rw [if_neg (by omega)]
    rw [hP]
    simp only [hwrap]

/-! ## Alphabetic lookups -/

/-- The result of `FromAlpha2` in terms of the scan for the first matching row. -/
theorem FromAlpha2_some (countries : List country) (code : String) (i : Nat)
    (h : rangeFind (fun r => r.alpha2 == code) countries 0 = some i) :
    FromAlpha2 countries code = (toCountry i, none) := by
  simp [FromAlpha2, h]

theorem FromAlpha2_none (countries : List country) (code : String)
    (h : rangeFind (fun r => r.alpha2 == code) countries 0 = none) :
    FromAlpha2 countries code =
      (0, some ⟨"no country exists with alpha2-code " ++ code⟩) := by
  simp [FromAlpha2, h]

theorem FromAlpha3_some (countries : List country) (code : String) (i : Nat)
    (h : rangeFind (fun r => r.alpha3 == code) countries 0 = some i) :
    FromAlpha3 countries code = (toCountry i, none) := by
  simp [FromAlpha3, h]

theorem FromAlpha3_none (countries : List country) (code : String)
    (h : rangeFind (fun r => r.alpha3 == code) countries 0 = none) :
    FromAlpha3 countries code =
      (0, some ⟨"no country exists with alpha3-code " ++ code⟩) := by
  simp [FromAlpha3, h]

theorem toCountry_of_lt (c : Nat) (h : c < 65536) : toCountry c = c := by
  simp [toCountry, Nat.mod_eq_of_lt h]

/-- The text of an error whose payload is a literal prefix followed by a code. -/
theorem Error_text (pre code : String) :
    (Error.mk (pre ++ code)).Error = ("iso3166: " ++ pre) ++ code := by
  simp [Error.Error, String.append_assoc]

/-! ## The claims -/

/-- C1: round-trip law for alphabetic codes.  In a table of at most 65536 rows whose alpha2
codes are pairwise distinct and whose alpha3 codes are pairwise distinct, for every Country
`c` that is a valid index, `c.Alpha2()` and `c.Alpha3()` are defined and
`FromAlpha2(c.Alpha2())` and `FromAlpha3(c.Alpha3())` both return `(c, nil)`. -/
theorem FromAlpha_roundtrip (countries : List country)
    (h2 : (countries.map (fun r => r.alpha2)).Nodup)
    (h3 : (countries.map (fun r => r.alpha3)).Nodup)
    (hlen : countries.length ≤ 65536) (c : Country) (hc : c < countries.length) :
    (∃ code, Alpha2 countries c = some code ∧ FromAlpha2 countries code = (c, none)) ∧
    (∃ code, Alpha3 countries c = some code ∧ FromAlpha3 countries code = (c, none)) := by
  have hget : countries[c]? = some countries[c] := List.getElem?_eq_getElem hc
  have hcc : toCountry c = c := toCountry_of_lt c (Nat.lt_of_lt_of_le hc hlen)
  constructor
  · refine ⟨countries[c].alpha2, by simp [Alpha2, hget], ?_⟩
    have := FromAlpha2_some countries countries[c].alpha2 c
      (rangeFind_of_nodup (fun r => r.alpha2) countries h2 c countries[c] hget)
    rw [this, hcc]
  · refine ⟨countries[c].alpha3, by simp [Alpha3, hget], ?_⟩
    have := FromAlpha3_some countries countries[c].alpha3 c
      (rangeFind_of_nodup (fun r => r.alpha3) countries h3 c countries[c] hget)
    rw [this, hcc]

/-- C1 at the sample table and its last row: `FromAlpha2("US")` and `FromAlpha3("USA")`
return Country 3. -/
theorem FromAlpha_roundtrip_witness :
    (∃ code, Alpha2 sampleTable 3 = some code ∧ FromAlpha2 sampleTable code = (3, none)) ∧
    (∃ code, Alpha3 sampleTable 3 = some code ∧ FromAlpha3 sampleTable code = (3, none)) :=
  FromAlpha_roundtrip sampleTable (by decide) (by decide) (by decide) 3 (by decide)

/-- C2: round-trip law for numeric codes.  In a table of at most 65536 rows whose numeric
codes are pairwise distinct and lie in [0, 999], for every Country `c` that is a valid
index, `Atoi` applied to the rendering `c.StringNumeric()` recovers `c.Numeric()` and
`FromNumeric(c.StringNumeric())` returns `(c, nil)`. -/
theorem FromNumeric_roundtrip (quote : String → String) (intSize : Nat)
    (hsz : intSize = 32 ∨ intSize = 64) (countries : List country)
    (hnd : (countries.map (fun r => r.numeric)).Nodup)
    (hrange : ∀ r ∈ countries, 0 ≤ r.numeric ∧ r.numeric ≤ 999)
    (hlen : countries.length ≤ 65536) (c : Country) (hc : c < countries.length) :
    ∃ text n, StringNumeric countries c = some text ∧ Numeric countries c = some n ∧
      Atoi intSize text = (n, none) ∧
      FromNumeric quote intSize countries text = (c, none) := by
  have hget : countries[c]? = some countries[c] := List.getElem?_eq_getElem hc
  have hcc : toCountry c = c := toCountry_of_lt c (Nat.lt_of_lt_of_le hc hlen)
  obtain ⟨h0, h1⟩ := hrange countries[c] (List.getElem_mem hc)
  have hatoi := Atoi_sprintf03d intSize hsz countries[c].numeric h0 h1
  refine ⟨sprintf03d countries[c].numeric, countries[c].numeric, by simp [StringNumeric, hget],
    by simp [Numeric, hget], hatoi, ?_⟩
  rw [FromNumeric_some quote intSize countries _ _ c hatoi
    (rangeFind_of_nodup (fun r => r.numeric) countries hnd c countries[c] hget), hcc]

/-- C2 at the sample table and its first row: the rendering is "004", `Atoi` reads 4 back
and `FromNumeric` returns Country 0. -/
theorem FromNumeric_roundtrip_witness :
    ∃ text n, StringNumeric sampleTable 0 = some text ∧ Numeric sampleTable 0 = some n ∧
      Atoi 64 text = (n, none) ∧
      FromNumeric plainQuote 64 sampleTable text = (0, none) :=
  FromNumeric_roundtrip plainQuote 64 (Or.inr rfl) sampleTable (by decide) (by decide)
    (by decide) 0 (by decide)

/-- C3 as stated fails on a table with more rows than `uint16` has values: in
`oversizedTable` a row has alpha2 "ZZ" (its smallest index is 65536), `FromAlpha2("ZZ")`
returns `(Country(65536), nil) = (0, nil)`, and Country 0 has alpha2 "AA", not "ZZ". -/
theorem FromAlpha2_first_match_oversized :
    (∃ r ∈ oversizedTable, r.alpha2 = "ZZ") ∧
    FromAlpha2 oversizedTable "ZZ" = (0, none) ∧
    Alpha2 oversizedTable (FromAlpha2 oversizedTable "ZZ").1 = some "AA" ∧
    Alpha2 oversizedTable (FromAlpha2 oversizedTable "ZZ").1 ≠ some "ZZ" := by
  have hres : FromAlpha2 oversizedTable "ZZ" = (0, none) := by
    have hf : rangeFind (fun r => r.alpha2 == "ZZ") oversizedTable 0 = some (0 + 65536) :=
      rangeFind_replicate_append _ _ _ 65536 0 (by decide) (by decide)
    rw [FromAlpha2_some _ _ _ hf]
    rfl
  have h0 : Alpha2 oversizedTable 0 = some "AA" := by
    unfold Alpha2 oversizedTable
    rw [getElem?_zero_replicate_append _ _ _ (by omega)]
    rfl
  refine ⟨⟨⟨"ZZ", "ZZZ", 2, "Z"⟩, List.mem_append_right _ (List.mem_singleton_self _), rfl⟩,
    hres, ?_, ?_⟩
  · rw [hres]; exact h0
  · rw [hres, h0]; decide

/-- C3 (as amended): `FromAlpha2` has first-match, exact-equality semantics.  If some row's
alpha2 equals `code`, there is a smallest index `i` of such a row and `FromAlpha2(code)`
returns `(Country(i), nil)`, where `Country(i)` is `i` reduced modulo 65536; when the table
has at most 65536 rows the returned Country `c` satisfies `c.Alpha2() == code`. -/
theorem FromAlpha2_first_match (countries : List country) (code : String)
    (h : ∃ r ∈ countries, r.alpha2 = code) :
    ∃ i r, countries[i]? = some r ∧ r.alpha2 = code ∧
      (∀ k r', k < i → countries[k]? = some r' → r'.alpha2 ≠ code) ∧
      FromAlpha2 countries code = (toCountry i, none) ∧
      (countries.length ≤ 65536 →
        FromAlpha2 countries code = (i, none) ∧
        Alpha2 countries (FromAlpha2 countries code).1 = some code) := by
  obtain ⟨i, r, hf, hi, hr, hmin⟩ :=
    rangeFind_of_mem (fun r => r.alpha2 == code) countries
      (by obtain ⟨r, hr, hrc⟩ := h; exact ⟨r, hr, by simp [hrc]⟩)
  have hrc : r.alpha2 = code := by simpa using hr
  have hres := FromAlpha2_some countries code i hf
  refine ⟨i, r, hi, hrc, ?_, hres, ?_⟩
  · intro k r' hk hk'
    simpa using hmin k r' hk hk'
  · intro hlen
    have hil : i < countries.length := (List.getElem?_eq_some.1 hi).1
    have hcc : toCountry i = i := toCountry_of_lt i (by omega)
    rw [hres, hcc]
    exact ⟨rfl, by simp [Alpha2, hi, hrc]⟩

/-- C3 (as amended) at a table with a duplicated code: rows 1 and 2 of `duplicateTable` are
both coded "BB", and `FromAlpha2("BB")` returns Country 1, the first of them. -/
theorem FromAlpha2_first_match_witness :
    FromAlpha2 duplicateTable "BB" = (1, none) ∧
    ∃ i r, duplicateTable[i]? = some r ∧ r.alpha2 = "BB" ∧
      (∀ k r', k < i → duplicateTable[k]? = some r' → r'.alpha2 ≠ "BB") ∧
      FromAlpha2 duplicateTable "BB" = (toCountry i, none) ∧
      (duplicateTable.length ≤ 65536 →
        FromAlpha2 duplicateTable "BB" = (i, none) ∧
        Alpha2 duplicateTable (FromAlpha2 duplicateTable "BB").1 = some "BB") :=
  ⟨by decide,
    FromAlpha2_first_match duplicateTable "BB" ⟨⟨"BB", "BB2", 3, "Second"⟩, by decide, rfl⟩⟩

/-- C4: `FromAlpha2` fails exactly when no row matches, with the documented message.  The
error is non-nil if and only if no row's alpha2 equals `code`; and when no row matches, the
result is Country 0 with an `Error` whose text is
`"iso3166: no country exists with alpha2-code "` followed by `code`. -/
theorem FromAlpha2_error (countries : List country) (code : String) :
    ((FromAlpha2 countries code).2 ≠ none ↔ ∀ r ∈ countries, r.alpha2 ≠ code) ∧
    ((∀ r ∈ countries, r.alpha2 ≠ code) →
      ∃ e, FromAlpha2 countries code = (0, some e) ∧
        e.Error = "iso3166: no country exists with alpha2-code " ++ code) := by
  have hnone : rangeFind (fun r => r.alpha2 == code) countries 0 = none ↔
      ∀ r ∈ countries, r.alpha2 ≠ code := by
    rw [rangeFind_eq_none]; simp
  constructor
  · cases hf : rangeFind (fun r => r.alpha2 == code) countries 0 with
    | none =>
      simp only [FromAlpha2_none _ _ hf, ne_eq, reduceCtorEq, not_false_eq_true, true_iff]
      exact hnone.1 hf
    | some i =>
      have hn : ¬ ∀ r ∈ countries, r.alpha2 ≠ code := fun hall => by
        rw [hnone.2 hall] at hf; cases hf
      simp only [FromAlpha2_some _ _ _ hf, ne_eq, not_true_eq_false, false_iff]
      exact hn
  · intro hall
    exact ⟨_, FromAlpha2_none _ _ (hnone.2 hall), Error_text _ _⟩

/-- C4 at the sample table: "ZZ" gives `"iso3166: no country exists with alpha2-code ZZ"`,
the empty code is rejected, and so is the lower-case "us". -/
theorem FromAlpha2_error_witness :
    (∃ e, FromAlpha2 sampleTable "ZZ" = (0, some e) ∧
      e.Error = "iso3166: no country exists with alpha2-code ZZ") ∧
    (∃ e, FromAlpha2 sampleTable "" = (0, some e) ∧
      e.Error = "iso3166: no country exists with alpha2-code ") ∧
    (FromAlpha2 sampleTable "us").2 ≠ none :=
  ⟨(FromAlpha2_error sampleTable "ZZ").2 (by decide),
   (FromAlpha2_error sampleTable "").2 (by decide),
   (FromAlpha2_error sampleTable "us").1.2 (by decide)⟩

/-- C5: `FromAlpha3` has the contract of `FromAlpha2` on the alpha3 column.  If some row's
alpha3 equals `code`, `FromAlpha3(code)` returns `(Country(i), nil)` with `i` the smallest
index of such a row; otherwise it returns Country 0 with an `Error` whose text is
`"iso3166: no country exists with alpha3-code "` followed by `code`. -/
theorem FromAlpha3_contract (countries : List country) (code : String) :
    ((∃ r ∈ countries, r.alpha3 = code) →
      ∃ i r, countries[i]? = some r ∧ r.alpha3 = code ∧
        (∀ k r', k < i → countries[k]? = some r' → r'.alpha3 ≠ code) ∧
        FromAlpha3 countries code = (toCountry i, none)) ∧
    ((¬ ∃ r ∈ countries, r.alpha3 = code) →
      ∃ e, FromAlpha3 countries code = (0, some e) ∧
        e.Error = "iso3166: no country exists with alpha3-code " ++ code) := by
  constructor
  · intro h
    obtain ⟨i, r, hf, hi, hr, hmin⟩ :=
      rangeFind_of_mem (fun r => r.alpha3 == code) countries
        (by obtain ⟨r, hr, hrc⟩ := h; exact ⟨r, hr, by simp [hrc]⟩)
    refine ⟨i, r, hi, by simpa using hr, ?_, FromAlpha3_some countries code i hf⟩
    intro k r' hk hk'
    simpa using hmin k r' hk hk'
  · intro h
    have hf : rangeFind (fun r => r.alpha3 == code) countries 0 = none := by
      rw [rangeFind_eq_none]
      intro r hr
      have : r.alpha3 ≠ code := fun hc => h ⟨r, hr, hc⟩
      simpa using this
    exact ⟨_, FromAlpha3_none _ _ hf, Error_text _ _⟩

/-- C5 at the sample table: `FromAlpha3("DEU")` returns the first row coded "DEU", and
"ZZZ" gives `"iso3166: no country exists with alpha3-code ZZZ"`. -/
theorem FromAlpha3_contract_witness :
    (∃ i r, sampleTable[i]? = some r ∧ r.alpha3 = "DEU" ∧
        (∀ k r', k < i → sampleTable[k]? = some r' → r'.alpha3 ≠ "DEU") ∧
        FromAlpha3 sampleTable "DEU" = (toCountry i, none)) ∧
    (∃ e, FromAlpha3 sampleTable "ZZZ" = (0, some e) ∧
      e.Error = "iso3166: no country exists with alpha3-code ZZZ") :=
  ⟨(FromAlpha3_contract sampleTable "DEU").1 ⟨⟨"DE", "DEU", 276, "Germany"⟩, by decide, rfl⟩,
   (FromAlpha3_contract sampleTable "ZZZ").2 (by decide)⟩

/-- C6: malformed numeric input is reported as a parse failure, never as not-found.  When
`Atoi` fails on `codeText` with error `err`, `FromNumeric(codeText)` returns Country 0 and
the error `Error(err.Error())`, whatever the table is; its text is
`"iso3166: strconv.Atoi: parsing "`, the quoted input, `": "` and the cause, and it is not the
text `"iso3166: no country exists with numeric-code "` followed by `codeText`. -/
theorem FromNumeric_parse_failure (quote : String → String) (intSize : Nat)
    (countries : List country) (codeText : String) (n : Int) (err : NumError)
    (hfail : Atoi intSize codeText = (n, some err)) :
    FromNumeric quote intSize countries codeText = (0, some ⟨err.Error quote⟩) ∧
    (∀ countries', FromNumeric quote intSize countries' codeText =
      FromNumeric quote intSize countries codeText) ∧
    (Error.mk (err.Error quote)).Error =
      "iso3166: strconv.Atoi: parsing " ++ quote codeText ++ ": " ++ err.Err.Error ∧
    (Error.mk (err.Error quote)).Error ≠
      "iso3166: no country exists with numeric-code " ++ codeText := by
  obtain ⟨hf, hn⟩ := Atoi_error_fields intSize codeText n err hfail
  refine ⟨FromNumeric_of_error quote intSize countries codeText n err hfail, ?_,
    Atoi_error_text quote err codeText hf hn⟩
  intro countries'
  rw [FromNumeric_of_error quote intSize countries' codeText n err hfail,
    FromNumeric_of_error quote intSize countries codeText n err hfail]

/-- C6 at "abc": `Atoi` fails with a syntax error and `FromNumeric("abc")` returns the text
`iso3166: strconv.Atoi: parsing "abc": invalid syntax`. -/
theorem FromNumeric_parse_failure_witness :
    Atoi 64 "abc" = (0, some ⟨"Atoi", "abc", ParseErr.ErrSyntax⟩) ∧
    (FromNumeric plainQuote 64 sampleTable "abc").2.map Error.Error =
      some "iso3166: strconv.Atoi: parsing \"abc\": invalid syntax" ∧
    (Error.mk (NumError.Error plainQuote ⟨"Atoi", "abc", ParseErr.ErrSyntax⟩)).Error ≠
      "iso3166: no country exists with numeric-code " ++ "abc" :=
  ⟨by decide, by decide,
    (FromNumeric_parse_failure plainQuote 64 sampleTable "abc" 0
      ⟨"Atoi", "abc", ParseErr.ErrSyntax⟩ (by decide)).2.2.2⟩

/-- C7 as stated fails on signed input: "+4" and "-1" contain a character that is no
digit, yet `Atoi` accepts both; `FromNumeric("+4")` succeeds with the Country of code 4 and
`FromNumeric("-1")` returns the not-found error, not a parse error. -/
theorem FromNumeric_signed_accepted :
    (∃ c ∈ "+4".data, ¬ isDigit c) ∧
    Atoi 64 "+4" = (4, none) ∧
    FromNumeric plainQuote 64 sampleTable "+4" = (0, none) ∧
    (∃ c ∈ "-1".data, ¬ isDigit c) ∧
    Atoi 64 "-1" = (-1, none) ∧
    (FromNumeric plainQuote 64 sampleTable "-1").2.map Error.Error =
      some "iso3166: no country exists with numeric-code -1" := by
  repeat' apply And.intro
  all_goals decide

/-- C7 (as amended): `FromNumeric` rejects every input that is not an optionally signed
digit string in range.  If, after one leading '+' or '-' when there is one, `codeText` is
empty or contains a character that is no ASCII digit, or if its value overflows the `int`
type (at least `2^(intSize-1)` without a minus sign, more than `2^(intSize-1)` with one),
then `Atoi` fails with an error `err` and `FromNumeric(codeText)` returns Country 0 with
`Error(err.Error())`, whose text is the `strconv.Atoi` message and not the not-found one. -/
theorem FromNumeric_malformed (quote : String → String) (intSize : Nat)
    (hsz : intSize = 32 ∨ intSize = 64) (countries : List country) (codeText : String)
    (h : unsignedPart codeText = [] ∨ (∃ c ∈ unsignedPart codeText, ¬ isDigit c) ∨
      (¬ hasMinus codeText ∧ 2 ^ (intSize - 1) ≤ decVal (unsignedPart codeText)) ∨
      (hasMinus codeText ∧ 2 ^ (intSize - 1) < decVal (unsignedPart codeText))) :
    ∃ n err, Atoi intSize codeText = (n, some err) ∧
      FromNumeric quote intSize countries codeText = (0, some ⟨err.Error quote⟩) ∧
      (Error.mk (err.Error quote)).Error =
        "iso3166: strconv.Atoi: parsing " ++ quote codeText ++ ": " ++ err.Err.Error ∧
      (Error.mk (err.Error quote)).Error ≠
        "iso3166: no country exists with numeric-code " ++ codeText := by
  obtain ⟨n, err, hfail⟩ := Atoi_malformed intSize hsz codeText h
  obtain ⟨hf, hn⟩ := Atoi_error_fields intSize codeText n err hfail
  exact ⟨n, err, hfail, FromNumeric_of_error quote intSize countries codeText n err hfail,
    Atoi_error_text quote err codeText hf hn⟩

/-- C7 (as amended) at the empty text, a lone sign, a text with a letter, and the two
smallest overflowing magnitudes of a 64-bit `int`: each is rejected with a parse error. -/
theorem FromNumeric_malformed_witness :
    (FromNumeric plainQuote 64 sampleTable "").2.map Error.Error =
      some "iso3166: strconv.Atoi: parsing \"\": invalid syntax" ∧
    (∃ n err, Atoi 64 "" = (n, some err) ∧
      FromNumeric plainQuote 64 sampleTable "" = (0, some ⟨err.Error plainQuote⟩) ∧
      (Error.mk (err.Error plainQuote)).Error =
        "iso3166: strconv.Atoi: parsing " ++ plainQuote "" ++ ": " ++ err.Err.Error ∧
      (Error.mk (err.Error plainQuote)).Error ≠
        "iso3166: no country exists with numeric-code " ++ "") ∧
    (∃ n err, Atoi 64 "+" = (n, some err) ∧
      FromNumeric plainQuote 64 sampleTable "+" = (0, some ⟨err.Error plainQuote⟩) ∧
      (Error.mk (err.Error plainQuote)).Error =
        "iso3166: strconv.Atoi: parsing " ++ plainQuote "+" ++ ": " ++ err.Err.Error ∧
      (Error.mk (err.Error plainQuote)).Error ≠
        "iso3166: no country exists with numeric-code " ++ "+") ∧
    (∃ n err, Atoi 64 "12a" = (n, some err) ∧
      FromNumeric plainQuote 64 sampleTable "12a" = (0, some ⟨err.Error plainQuote⟩) ∧
      (Error.mk (err.Error plainQuote)).Error =
        "iso3166: strconv.Atoi: parsing " ++ plainQuote "12a" ++ ": " ++ err.Err.Error ∧
      (Error.mk (err.Error plainQuote)).Error ≠
        "iso3166: no country exists with numeric-code " ++ "12a") ∧
    (∃ n err, Atoi 64 "9223372036854775808" = (n, some err) ∧
      FromNumeric plainQuote 64 sampleTable "9223372036854775808" =
        (0, some ⟨err.Error plainQuote⟩) ∧
      (Error.mk (err.Error plainQuote)).Error =
        "iso3166: strconv.Atoi: parsing " ++ plainQuote "9223372036854775808" ++ ": " ++
          err.Err.Error ∧
      (Error.mk (err.Error plainQuote)).Error ≠
        "iso3166: no country exists with numeric-code " ++ "9223372036854775808") ∧
    (∃ n err, Atoi 64 "-9223372036854775809" = (n, some err) ∧
      FromNumeric plainQuote 64 sampleTable "-9223372036854775809" =
        (0, some ⟨err.Error plainQuote⟩) ∧
      (Error.mk (err.Error plainQuote)).Error =
        "iso3166: strconv.Atoi: parsing " ++ plainQuote "-9223372036854775809" ++ ": " ++
          err.Err.Error ∧
      (Error.mk (err.Error plainQuote)).Error ≠
        "iso3166: no country exists with numeric-code " ++ "-9223372036854775809") :=
  ⟨by decide,
   FromNumeric_malformed plainQuote 64 (Or.inr rfl) sampleTable "" (Or.inl (by decide)),
   FromNumeric_malformed plainQuote 64 (Or.inr rfl) sampleTable "+" (Or.inl (by decide)),
   FromNumeric_malformed plainQuote 64 (Or.inr rfl) sampleTable "12a"
     (Or.inr (Or.inl (by decide))),
   FromNumeric_malformed plainQuote 64 (Or.inr rfl) sampleTable "9223372036854775808"
     (Or.inr (Or.inr (Or.inl (by decide)))),
   FromNumeric_malformed plainQuote 64 (Or.inr rfl) sampleTable "-9223372036854775809"
     (Or.inr (Or.inr (Or.inr (by decide))))⟩

/-- C8: the not-found error of `FromNumeric` echoes the original text.  When `codeText`
parses to an integer `n` and no row has numeric `n`, `FromNumeric(codeText)` returns Country 0
with an `Error` whose text is `"iso3166: no country exists with numeric-code "` followed by
`codeText` itself. -/
theorem FromNumeric_not_found (quote : String → String) (intSize : Nat)
    (countries : List country) (codeText : String) (n : Int)
    (hparse : Atoi intSize codeText = (n, none))
    (hno : ∀ r ∈ countries, r.numeric ≠ n) :
    ∃ e, FromNumeric quote intSize countries codeText = (0, some e) ∧
      e.Error = "iso3166: no country exists with numeric-code " ++ codeText := by
  have hf : rangeFind (fun r => r.numeric == n) countries 0 = none := by
    rw [rangeFind_eq_none]
    intro r hr
    simpa using hno r hr
  exact ⟨_, FromNumeric_none quote intSize countries codeText n hparse hf, Error_text _ _⟩

/-- C8 at the sample table: "0999" parses to 999, no row has that code, and the error text
ends in "0999", not "999". -/
theorem FromNumeric_not_found_witness :
    ∃ e, FromNumeric plainQuote 64 sampleTable "0999" = (0, some e) ∧
      e.Error = "iso3166: no country exists with numeric-code 0999" :=
  FromNumeric_not_found plainQuote 64 sampleTable "0999" 999 (by decide) (by decide)

/-- C9: leading zeros are tolerated by `FromNumeric`.  For a non-empty string `s` of ASCII
digits whose value fits the `int` type and every `k`, `Atoi` gives `s` prefixed with `k`
zeros the value it gives `s`, without error; so `FromNumeric` succeeds on the one exactly
when it succeeds on the other, and then returns the same Country. -/
theorem FromNumeric_leading_zeros (quote : String → String) (intSize : Nat)
    (hsz : intSize = 32 ∨ intSize = 64) (countries : List country) (s : String)
    (hne : s.data ≠ []) (hd : ∀ c ∈ s.data, isDigit c)
    (hfit : decVal s.data < 2 ^ (intSize - 1)) (k : Nat) :
    Atoi intSize s = ((decVal s.data : Int), none) ∧
    Atoi intSize (zeroPrefixed k s) = ((decVal s.data : Int), none) ∧
    ((FromNumeric quote intSize countries (zeroPrefixed k s)).2 = none ↔
      (FromNumeric quote intSize countries s).2 = none) ∧
    ((FromNumeric quote intSize countries s).2 = none →
      FromNumeric quote intSize countries (zeroPrefixed k s) =
        FromNumeric quote intSize countries s) := by
  have hs : Atoi intSize s = ((decVal s.data : Int), none) :=
    Atoi_digits intSize hsz s.data hne hd hfit
  have hval : decVal (List.replicate k '0' ++ s.data) = decVal s.data :=
    decValFrom_zeros k s.data
  have hz : Atoi intSize (zeroPrefixed k s) = ((decVal s.data : Int), none) := by
    have := Atoi_digits intSize hsz (List.replicate k '0' ++ s.data) (by simp [hne])
      (by
        intro c hc
        rcases List.mem_append.1 hc with hc | hc
        · rw [(List.mem_replicate.1 hc).2]; decide
        · exact hd c hc)
      (by rw [hval]; exact hfit)
    rw [hval] at this
    exact this
  refine ⟨hs, hz, ?_⟩
  cases hf : rangeFind (fun r => r.numeric == (decVal s.data : Int)) countries 0 with
  | none =>
    rw [FromNumeric_none quote intSize countries _ _ hz hf,
      FromNumeric_none quote intSize countries _ _ hs hf]
    simp
  | some i =>
    rw [FromNumeric_some quote intSize countries _ _ i hz hf,
      FromNumeric_some quote intSize countries _ _ i hs hf]
    simp

/-- C9 at the sample table: "004" is "4" prefixed with two zeros, and `FromNumeric("004")`
and `FromNumeric("4")` both return Country 0 without error. -/
theorem FromNumeric_leading_zeros_witness :
    zeroPrefixed 2 "4" = "004" ∧
    FromNumeric plainQuote 64 sampleTable "4" = (0, none) ∧
    FromNumeric plainQuote 64 sampleTable (zeroPrefixed 2 "4") =
      FromNumeric plainQuote 64 sampleTable "4" :=
  ⟨by decide, by decide,
    (FromNumeric_leading_zeros plainQuote 64 (Or.inr rfl) sampleTable "4" (by decide)
      (by decide) (by decide) 2).2.2.2 (by decide)⟩

/-- C10: `StringNumeric` is fixed-width exactly on the three-digit range.  For a valid
Country `c` with numeric code `n`: if `0 ≤ n ≤ 999` the rendering has length exactly 3,
consists of ASCII digits only, is the hundreds, tens and units digit of `n` (the decimal
representation of `n` left-padded with '0' to three characters), and `Atoi` reads `n` back
from it; if `n ≥ 1000` the rendering has more than 3 bytes and characters. -/
theorem StringNumeric_fixed_width (intSize : Nat) (hsz : intSize = 32 ∨ intSize = 64)
    (countries : List country) (c : Country) (hc : c < countries.length) :
    ∃ n text, Numeric countries c = some n ∧ StringNumeric countries c = some text ∧
      ((0 ≤ n ∧ n ≤ 999) →
        len text = 3 ∧ text.length = 3 ∧ (∀ ch ∈ text.data, isDigit ch) ∧
        text.data = [digitChar (n.toNat / 100), digitChar (n.toNat / 10 % 10),
          digitChar (n.toNat % 10)] ∧
        text.data = List.replicate (3 - (Nat.repr n.toNat).length) '0' ++
          (Nat.repr n.toNat).data ∧
        Atoi intSize text = (n, none)) ∧
      (1000 ≤ n → 3 < len text ∧ 3 < text.length) := by
  have hget : countries[c]? = some countries[c] := List.getElem?_eq_getElem hc
  refine ⟨countries[c].numeric, sprintf03d countries[c].numeric, by simp [Numeric, hget],
    by simp [StringNumeric, hget], ?_, sprintf03d_large _⟩
  rintro ⟨h0, h1⟩
  have hatoi := Atoi_sprintf03d intSize hsz countries[c].numeric h0 h1
  generalize countries[c].numeric = n at h0 h1 hatoi ⊢
  obtain ⟨m, rfl⟩ := Int.eq_ofNat_of_zero_le h0
  have hm : m ≤ 999 := by omega
  have hdata := sprintf03d_small m hm
  have hd : ∀ x ∈ [digitChar (m / 100), digitChar (m / 10 % 10), digitChar (m % 10)],
      isDigit x := by
    intro x hx
    simp only [List.mem_cons, List.mem_singleton, List.not_mem_nil, or_false] at hx
    rcases hx with rfl | rfl | rfl <;> exact digitChar_isDigit _ (by omega)
  refine ⟨?_, ?_, ?_, ?_, ?_, hatoi⟩
  · rw [hdata, len_digits _ hd]; rfl
  · rw [hdata]; rfl
  · rw [hdata]; exact hd
  · rw [hdata]; rfl
  · have : (sprintf03d (m : Int)).data = padZeros 3 (fmtDigits m) := by
      unfold sprintf03d
      rw [if_neg (by omega), Int.natAbs_ofNat]
    rw [this, padZeros_eq, fmtDigits_eq_repr]
    rfl

/-- C10 at the sample table: 4 is rendered "004" and 840 is rendered "840", and the
theorem's conclusion holds for the first row. -/
theorem StringNumeric_fixed_width_witness :
    StringNumeric sampleTable 0 = some "004" ∧ StringNumeric sampleTable 3 = some "840" ∧
    ∃ n text, Numeric sampleTable 0 = some n ∧ StringNumeric sampleTable 0 = some text ∧
      ((0 ≤ n ∧ n ≤ 999) →
        len text = 3 ∧ text.length = 3 ∧ (∀ ch ∈ text.data, isDigit ch) ∧
        text.data = [digitChar (n.toNat / 100), digitChar (n.toNat / 10 % 10),
          digitChar (n.toNat % 10)] ∧
        text.data = List.replicate (3 - (Nat.repr n.toNat).length) '0' ++
          (Nat.repr n.toNat).data ∧
        Atoi 64 text = (n, none)) ∧
      (1000 ≤ n → 3 < len text ∧ 3 < text.length) :=
  ⟨by
      show some (sprintf03d ((4 : Nat) : Int)) = some "004"
      rw [sprintf03d_small 4 (by omega)]
      rfl,
   by
      show some (sprintf03d ((840 : Nat) : Int)) = some "840"
      rw [sprintf03d_small 840 (by omega)]
      rfl,
   StringNumeric_fixed_width 64 (Or.inr rfl) sampleTable 0 (by decide)⟩

/-! ## The claims on `Must`, error texts, bounds and first matches -/

/-- The scan returns an index of the table, and so does its conversion to `uint16`. -/
theorem rangeFind_lt (p : country → Bool) (l : List country) (i : Nat)
    (h : rangeFind p l 0 = some i) : i < l.length ∧ toCountry i < l.length := by
  obtain ⟨j, r, hj, hi, _, _⟩ := (rangeFind_eq_some p l 0 i).1 h
  have hjl : j < l.length := (List.getElem?_eq_some.1 hi).1
  have hle : toCountry i ≤ i := Nat.mod_le i 65536
  have hij : i = j := by omega
  rw [hij] at hle ⊢
  exact ⟨hjl, Nat.lt_of_le_of_lt hle hjl⟩

/-- C11: `Must` is unwrap-or-abort.  For every Country `c` and every error value `err`,
`Must(c, err)` returns `c` when `err` is nil and panics with `err` itself when it is not; it
panics if and only if `err` is non-nil.  So `Must(FromAlpha2(code))` returns the Country of
the first matching row when some row matches, and panics with the not-found error when
none does. -/
theorem Must_unwrap_or_abort {ε : Type} (c : Country) (err : Option ε)
    (countries : List country) (code : String) :
    (err = none → Must c err = Except.ok c) ∧
    (∀ e, err = some e → Must c err = Except.error e) ∧
    ((∃ e, Must c err = Except.error e) ↔ err ≠ none) ∧
    ((∃ r ∈ countries, r.alpha2 = code) →
      ∃ i r, countries[i]? = some r ∧ r.alpha2 = code ∧
        (∀ k r', k < i → countries[k]? = some r' → r'.alpha2 ≠ code) ∧
        FromAlpha2 countries code = (toCountry i, none) ∧
        Must (FromAlpha2 countries code).1 (FromAlpha2 countries code).2 =
          Except.ok (toCountry i)) ∧
    ((∀ r ∈ countries, r.alpha2 ≠ code) →
      Must (FromAlpha2 countries code).1 (FromAlpha2 countries code).2 =
        Except.error ⟨"no country exists with alpha2-code " ++ code⟩) := by
  refine ⟨?_, ?_, ?_, ?_, ?_⟩
  · rintro rfl
    rfl
  · rintro e rfl
    rfl
  · cases err with
    | none => simp [Must]
    | some e => simp [Must]
  · intro h
    obtain ⟨i, r, hf, hi, hr, hmin⟩ :=
      rangeFind_of_mem (fun r => r.alpha2 == code) countries
        (by obtain ⟨r, hr, hrc⟩ := h; exact ⟨r, hr, by simp [hrc]⟩)
    have hres := FromAlpha2_some countries code i hf
    refine ⟨i, r, hi, by simpa using hr, ?_, hres, ?_⟩
    · intro k r' hk hk'
      simpa using hmin k r' hk hk'
    · rw [hres]
      rfl
  · intro hall
    have hf : rangeFind (fun r => r.alpha2 == code) countries 0 = none := by
      rw [rangeFind_eq_none]
      intro r hr
      simpa using hall r hr
    rw [FromAlpha2_none countries code hf]
    rfl

/-- C11 at the sample table: `Must(FromAlpha2("US"))` returns Country 3 and
`Must(FromAlpha2("ZZ"))` panics with the error whose text is
`iso3166: no country exists with alpha2-code ZZ`. -/
theorem Must_unwrap_or_abort_witness :
    Must (FromAlpha2 sampleTable "US").1 (FromAlpha2 sampleTable "US").2 = Except.ok 3 ∧
    Must (FromAlpha2 sampleTable "ZZ").1 (FromAlpha2 sampleTable "ZZ").2 =
      Except.error ⟨"no country exists with alpha2-code " ++ "ZZ"⟩ ∧
    ((∃ e, Must 7 (some (Error.mk "x")) = Except.error e) ↔ some (Error.mk "x") ≠ none) :=
  ⟨by rw [show FromAlpha2 sampleTable "US" = (3, none) by decide]; rfl,
   (Must_unwrap_or_abort 0 (none : Option Error) sampleTable "ZZ").2.2.2.2 (by decide),
   (Must_unwrap_or_abort 7 (some (Error.mk "x")) sampleTable "US").2.2.1⟩

/-- The text of every `Error` begins with the namespace tag. -/
theorem Error_tagged (e : Error) :
    e.Error = "iso3166: " ++ e.str ∧ "iso3166: ".data <+: e.Error.data := by
  refine ⟨rfl, ?_⟩
  unfold Error.Error
  rw [String.data_append]
  exact List.prefix_append _ _

/-- The error payloads of `FromAlpha2`. -/
theorem FromAlpha2_error_str (countries : List country) (input : String) (e : Error)
    (h : (FromAlpha2 countries input).2 = some e) :
    e.str = "no country exists with alpha2-code " ++ input := by
  cases hf : rangeFind (fun r => r.alpha2 == input) countries 0 with
  | none =>
    rw [FromAlpha2_none countries input hf] at h
    simp only [Option.some.injEq] at h
    rw [← h]
  | some i =>
    rw [FromAlpha2_some countries input i hf] at h
    simp at h

/-- The error payloads of `FromAlpha3`. -/
theorem FromAlpha3_error_str (countries : List country) (input : String) (e : Error)
    (h : (FromAlpha3 countries input).2 = some e) :
    e.str = "no country exists with alpha3-code " ++ input := by
  cases hf : rangeFind (fun r => r.alpha3 == input) countries 0 with
  | none =>
    rw [FromAlpha3_none countries input hf] at h
    simp only [Option.some.injEq] at h
    rw [← h]
  | some i =>
    rw [FromAlpha3_some countries input i hf] at h
    simp at h

/-- The error payloads of `FromNumeric`: the text of the parse error, or the not-found
message. -/
theorem FromNumeric_error_str (quote : String → String) (w : Nat) (countries : List country)
    (input : String) (e : Error) (h : (FromNumeric quote w countries input).2 = some e) :
    (∃ n err, Atoi w input = (n, some err) ∧ e.str = err.Error quote) ∨
    (∃ n, Atoi w input = (n, none) ∧
      e.str = "no country exists with numeric-code " ++ input) := by
  rcases hA : Atoi w input with ⟨n, _ | err⟩
  · right
    refine ⟨n, rfl, ?_⟩
    cases hf : rangeFind (fun r => r.numeric == n) countries 0 with
    | none =>
      rw [FromNumeric_none quote w countries input n hA hf] at h
      simp only [Option.some.injEq] at h
      rw [← h]
    | some i =>
      rw [FromNumeric_some quote w countries input n i hA hf] at h
      simp at h
  · left
    refine ⟨n, err, rfl, ?_⟩
    rw [FromNumeric_of_error quote w countries input n err hA] at h
    simp only [Option.some.injEq] at h
    rw [← h]

/-- C12: every error produced by the package is namespaced.  For every `Error` value `e`,
`e.Error()` is `"iso3166: "` followed by the underlying string of `e`; and every non-nil
error returned by `FromAlpha2`, `FromAlpha3` or `FromNumeric` is an `Error` whose payload is
the not-found message of that lookup or, for `FromNumeric`, the text of the `Atoi` error, so
that its text begins with `"iso3166: "`. -/
theorem errors_namespaced (quote : String → String) (intSize : Nat)
    (countries : List country) (input : String) :
    (∀ e : Error, e.Error = "iso3166: " ++ e.str) ∧
    (∀ e, (FromAlpha2 countries input).2 = some e →
      e.str = "no country exists with alpha2-code " ++ input ∧
      "iso3166: ".data <+: e.Error.data) ∧
    (∀ e, (FromAlpha3 countries input).2 = some e →
      e.str = "no country exists with alpha3-code " ++ input ∧
      "iso3166: ".data <+: e.Error.data) ∧
    (∀ e, (FromNumeric quote intSize countries input).2 = some e →
      ((∃ n err, Atoi intSize input = (n, some err) ∧ e.str = err.Error quote ∧
          e.Error = "iso3166: strconv.Atoi: parsing " ++ quote input ++ ": " ++
            err.Err.Error) ∨
        (∃ n, Atoi intSize input = (n, none) ∧
          e.str = "no country exists with numeric-code " ++ input)) ∧
      "iso3166: ".data <+: e.Error.data) := by
  refine ⟨fun e => (Error_tagged e).1, ?_, ?_, ?_⟩
  · intro e h
    exact ⟨FromAlpha2_error_str countries input e h, (Error_tagged e).2⟩
  · intro e h
    exact ⟨FromAlpha3_error_str countries input e h, (Error_tagged e).2⟩
  · intro e h
    refine ⟨?_, (Error_tagged e).2⟩
    rcases FromNumeric_error_str quote intSize countries input e h with
      ⟨n, err, hA, hs⟩ | ⟨n, hA, hs⟩
    · left
      obtain ⟨hf, hn⟩ := Atoi_error_fields intSize input n err hA
      refine ⟨n, err, hA, hs, ?_⟩
      have := (Atoi_error_text quote err input hf hn).1
      rw [← hs] at this
      exact this
    · exact Or.inr ⟨n, hA, hs⟩

/-- C12 at the sample table: the errors of the three lookups on inputs that are not found,
and the propagated parse failure of `FromNumeric("abc")`, all begin with "iso3166: ". -/
theorem errors_namespaced_witness :
    (FromAlpha2 sampleTable "ZZ").2.map Error.Error =
      some "iso3166: no country exists with alpha2-code ZZ" ∧
    (FromAlpha3 sampleTable "ZZZ").2.map Error.Error =
      some "iso3166: no country exists with alpha3-code ZZZ" ∧
    (FromNumeric plainQuote 64 sampleTable "999").2.map Error.Error =
      some "iso3166: no country exists with numeric-code 999" ∧
    (FromNumeric plainQuote 64 sampleTable "abc").2.map Error.Error =
      some "iso3166: strconv.Atoi: parsing \"abc\": invalid syntax" ∧
    (∀ e, (FromNumeric plainQuote 64 sampleTable "abc").2 = some e →
      "iso3166: ".data <+: e.Error.data) := by
  refine ⟨by decide, by decide, by decide, by decide, fun e h => ?_⟩
  exact ((errors_namespaced plainQuote 64 sampleTable "abc").2.2.2 e h).2

/-- At an index of the table every accessor is defined. -/
theorem accessorsDefined_of_lt (countries : List country) (c : Country)
    (h : c < countries.length) : accessorsDefined countries c := by
  have hget : countries[c]? = some countries[c] := List.getElem?_eq_getElem h
  simp [accessorsDefined, Alpha2, Alpha3, Numeric, StringNumeric, Name, hget]

/-- A successful scan in a table of at most 65536 rows: the Country returned is the index of
the first matching row. -/
theorem rangeFind_country (p : country → Bool) (countries : List country)
    (hlen : countries.length ≤ 65536) (i : Nat) (h : rangeFind p countries 0 = some i) :
    toCountry i = i ∧ i < countries.length ∧ ∃ r, countries[i]? = some r ∧ p r = true := by
  obtain ⟨j, r, hj, hi, hr, _⟩ := (rangeFind_eq_some p countries 0 i).1 h
  have hij : i = j := by omega
  have hjl : j < countries.length := (List.getElem?_eq_some.1 hi).1
  rw [hij]
  exact ⟨toCountry_of_lt j (Nat.lt_of_lt_of_le hjl hlen), hjl, r, hi, hr⟩

/-- C13: a successful lookup always yields a usable Country.  In a table of at most 65536
rows, whenever `FromAlpha2`, `FromAlpha3` or `FromNumeric` returns a nil error, the Country
returned is less than the table length, it is the index of a row carrying the key looked
up, and the accessors `Alpha2`, `Alpha3`, `Numeric`, `StringNumeric` and `Name` are all
defined at it; so each lookup returns either an in-range Country with a nil error or a
non-nil error, never a nil error with an out-of-range Country. -/
theorem lookup_in_bounds (quote : String → String) (intSize : Nat)
    (countries : List country) (hlen : countries.length ≤ 65536) (input : String) :
    (∀ c, FromAlpha2 countries input = (c, none) →
      c < countries.length ∧ (∃ r, countries[c]? = some r ∧ r.alpha2 = input) ∧
      accessorsDefined countries c) ∧
    (∀ c, FromAlpha3 countries input = (c, none) →
      c < countries.length ∧ (∃ r, countries[c]? = some r ∧ r.alpha3 = input) ∧
      accessorsDefined countries c) ∧
    (∀ c, FromNumeric quote intSize countries input = (c, none) →
      c < countries.length ∧
      (∃ r n, countries[c]? = some r ∧ Atoi intSize input = (n, none) ∧ r.numeric = n) ∧
      accessorsDefined countries c) ∧
    (((FromAlpha2 countries input).2 = none ∧
        (FromAlpha2 countries input).1 < countries.length) ∨
      (FromAlpha2 countries input).2 ≠ none) ∧
    (((FromAlpha3 countries input).2 = none ∧
        (FromAlpha3 countries input).1 < countries.length) ∨
      (FromAlpha3 countries input).2 ≠ none) ∧
    (((FromNumeric quote intSize countries input).2 = none ∧
        (FromNumeric quote intSize countries input).1 < countries.length) ∨
      (FromNumeric quote intSize countries input).2 ≠ none) := by
  have h2 : ∀ c, FromAlpha2 countries input = (c, none) →
      c < countries.length ∧ (∃ r, countries[c]? = some r ∧ r.alpha2 = input) ∧
      accessorsDefined countries c := by
    intro c h
    cases hf : rangeFind (fun r => r.alpha2 == input) countries 0 with
    | none => rw [FromAlpha2_none countries input hf] at h; simp at h
    | some i =>
      obtain ⟨hcc, hil, r, hi, hr⟩ := rangeFind_country _ countries hlen i hf
      rw [FromAlpha2_some countries input i hf, hcc] at h
      have hci : i = c := (Prod.mk.inj h).1
      subst hci
      exact ⟨hil, ⟨r, hi, by simpa using hr⟩, accessorsDefined_of_lt countries i hil⟩
  have h3 : ∀ c, FromAlpha3 countries input = (c, none) →
      c < countries.length ∧ (∃ r, countries[c]? = some r ∧ r.alpha3 = input) ∧
      accessorsDefined countries c := by
    intro c h
    cases hf : rangeFind (fun r => r.alpha3 == input) countries 0 with
    | none => rw [FromAlpha3_none countries input hf] at h; simp at h
    | some i =>
      obtain ⟨hcc, hil, r, hi, hr⟩ := rangeFind_country _ countries hlen i hf
      rw [FromAlpha3_some countries input i hf, hcc] at h
      have hci : i = c := (Prod.mk.inj h).1
      subst hci
      exact ⟨hil, ⟨r, hi, by simpa using hr⟩, accessorsDefined_of_lt countries i hil⟩
  have hn : ∀ c, FromNumeric quote intSize countries input = (c, none) →
      c < countries.length ∧
      (∃ r n, countries[c]? = some r ∧ Atoi intSize input = (n, none) ∧ r.numeric = n) ∧
      accessorsDefined countries c := by
    intro c h
    rcases hA : Atoi intSize input with ⟨n, _ | err⟩
    · cases hf : rangeFind (fun r => r.numeric == n) countries 0 with
      | none => rw [FromNumeric_none quote intSize countries input n hA hf] at h; simp at h
      | some i =>
        obtain ⟨hcc, hil, r, hi, hr⟩ := rangeFind_country _ countries hlen i hf
        rw [FromNumeric_some quote intSize countries input n i hA hf, hcc] at h
        have hci : i = c := (Prod.mk.inj h).1
        subst hci
        exact ⟨hil, ⟨r, n, hi, rfl, by simpa using hr⟩,
          accessorsDefined_of_lt countries i hil⟩
    · rw [FromNumeric_of_error quote intSize countries input n err hA] at h
      simp at h
  refine ⟨h2, h3, hn, ?_, ?_, ?_⟩
  · rcases hr : FromAlpha2 countries input with ⟨c, _ | e⟩
    · exact Or.inl ⟨rfl, (h2 c hr).1⟩
    · exact Or.inr (by simp)
  · rcases hr : FromAlpha3 countries input with ⟨c, _ | e⟩
    · exact Or.inl ⟨rfl, (h3 c hr).1⟩
    · exact Or.inr (by simp)
  · rcases hr : FromNumeric quote intSize countries input with ⟨c, _ | e⟩
    · exact Or.inl ⟨rfl, (hn c hr).1⟩
    · exact Or.inr (by simp)

/-- C13 at the sample table: `FromAlpha2("JP")` returns Country 2, which is in range and at
which every accessor is defined. -/
theorem lookup_in_bounds_witness :
    FromAlpha2 sampleTable "JP" = (2, none) ∧ 2 < sampleTable.length ∧
    (∃ r, sampleTable[2]? = some r ∧ r.alpha2 = "JP") ∧ accessorsDefined sampleTable 2 :=
  ⟨by decide,
    (lookup_in_bounds plainQuote 64 sampleTable (by decide) "JP").1 2 (by decide)⟩

/-! ## Key uniqueness as a property of a table -/

/-- A column of a table has no repetition exactly when no two distinct indices share a
value of it. -/
theorem nodup_map_iff {κ : Type} (key : country → κ) (l : List country) :
    (l.map key).Nodup ↔
      ∀ (i j : Nat) (ri rj : country), l[i]? = some ri → l[j]? = some rj → i ≠ j →
        key ri ≠ key rj := by
  rw [List.nodup_iff_getElem?_ne_getElem?]
  constructor
  · intro h i j ri rj hi hj hij heq
    have hil : i < l.length := (List.getElem?_eq_some.1 hi).1
    have hjl : j < l.length := (List.getElem?_eq_some.1 hj).1
    have h1 : (l.map key)[i]? = some (key ri) := by simp [hi]
    have h2 : (l.map key)[j]? = some (key rj) := by simp [hj]
    rcases Nat.lt_or_gt_of_ne hij with hlt | hgt
    · exact h i j hlt (by simpa using hjl) (by rw [h1, h2, heq])
    · exact h j i hgt (by simpa using hil) (by rw [h1, h2, heq])
  · intro h i j hij hj heq
    have hjl : j < l.length := by simpa using hj
    have hil : i < l.length := by omega
    have hi' : l[i]? = some l[i] := List.getElem?_eq_getElem hil
    have hj' : l[j]? = some l[j] := List.getElem?_eq_getElem hjl
    apply h i j l[i] l[j] hi' hj' (by omega)
    simpa [hi', hj'] using heq

/-- The table has unique keys exactly when no two distinct indices share an alpha2 code, an
alpha3 code or a numeric code. -/
theorem keysUnique_iff (countries : List country) :
    keysUnique countries ↔
      ∀ (i j : Nat) (ri rj : country), countries[i]? = some ri → countries[j]? = some rj →
        i ≠ j → ri.alpha2 ≠ rj.alpha2 ∧ ri.alpha3 ≠ rj.alpha3 ∧ ri.numeric ≠ rj.numeric := by
  unfold keysUnique
  rw [nodup_map_iff, nodup_map_iff, nodup_map_iff]
  constructor
  · rintro ⟨h2, h3, hn⟩ i j ri rj hi hj hij
    exact ⟨h2 i j ri rj hi hj hij, h3 i j ri rj hi hj hij, hn i j ri rj hi hj hij⟩
  · intro h
    exact ⟨fun i j ri rj hi hj hij => (h i j ri rj hi hj hij).1,
      fun i j ri rj hi hj hij => (h i j ri rj hi hj hij).2.1,
      fun i j ri rj hi hj hij => (h i j ri rj hi hj hij).2.2⟩

/-- The sample table has unique keys and the table with a duplicated code has not. -/
theorem keysUnique_samples : keysUnique sampleTable ∧ ¬ keysUnique duplicateTable := by
  constructor <;> decide

/-- C15 as stated fails on a table with more rows than `uint16` has values: in
`oversizedTable` the only row of numeric code 2 has index 65536, `FromNumeric("2")` returns
`(Country(65536), nil) = (0, nil)`, and Country 0 has numeric code 1, so 0 is not an index
whose numeric equals the parsed value and the returned Country's `Numeric()` is not 2. -/
theorem FromNumeric_characterisation_oversized :
    Atoi 64 "2" = (2, none) ∧
    FromNumeric plainQuote 64 oversizedTable "2" = (0, none) ∧
    Numeric oversizedTable (FromNumeric plainQuote 64 oversizedTable "2").1 = some 1 ∧
    Numeric oversizedTable (FromNumeric plainQuote 64 oversizedTable "2").1 ≠ some 2 := by
  have hA : Atoi 64 "2" = (2, none) := by decide
  have hres : FromNumeric plainQuote 64 oversizedTable "2" = (0, none) := by
    have hf : rangeFind (fun r => r.numeric == (2 : Int)) oversizedTable 0 =
        some (0 + 65536) :=
      rangeFind_replicate_append _ _ _ 65536 0 (by decide) (by decide)
    rw [FromNumeric_some plainQuote 64 oversizedTable "2" 2 _ hA hf]
    rfl
  have h0 : Numeric oversizedTable 0 = some 1 := by
    unfold Numeric oversizedTable
    rw [getElem?_zero_replicate_append _ _ _ (by omega)]
    rfl
  refine ⟨hA, hres, ?_, ?_⟩
  · rw [hres]; exact h0
  · rw [hres, h0]; decide

/-- C15 (as amended): complete characterisation of `FromNumeric`, signed input included.
In a table of at most 65536 rows, `FromNumeric(codeText)` returns `(i, nil)` if and only if
`Atoi(codeText)` succeeds with a value `n` and `i` is the smallest index whose numeric
equals `n`; the returned Country `c` then satisfies `c.Numeric() == n`.  And a non-empty
string `s` of ASCII digits whose value fits the `int` type is accepted with a plus sign in
front: `Atoi` gives "+" followed by `s` the value of `s`, and `FromNumeric` returns the same
Country for both. -/
theorem FromNumeric_characterisation (quote : String → String) (intSize : Nat)
    (hsz : intSize = 32 ∨ intSize = 64) (countries : List country)
    (hlen : countries.length ≤ 65536) (codeText : String) :
    (∀ i : Nat, FromNumeric quote intSize countries codeText = (i, none) ↔
      ∃ n r, Atoi intSize codeText = (n, none) ∧ countries[i]? = some r ∧ r.numeric = n ∧
        ∀ k r', k < i → countries[k]? = some r' → r'.numeric ≠ n) ∧
    (∀ c, FromNumeric quote intSize countries codeText = (c, none) →
      ∃ n, Atoi intSize codeText = (n, none) ∧ Numeric countries c = some n) ∧
    (∀ s : String, s.data ≠ [] → (∀ ch ∈ s.data, isDigit ch) →
      decVal s.data < 2 ^ (intSize - 1) →
      Atoi intSize s = ((decVal s.data : Int), none) ∧
      Atoi intSize ("+" ++ s) = ((decVal s.data : Int), none) ∧
      ∀ c, FromNumeric quote intSize countries ("+" ++ s) = (c, none) ↔
        FromNumeric quote intSize countries s = (c, none)) := by
  have hiff : ∀ i : Nat, FromNumeric quote intSize countries codeText = (i, none) ↔
      ∃ n r, Atoi intSize codeText = (n, none) ∧ countries[i]? = some r ∧ r.numeric = n ∧
        ∀ k r', k < i → countries[k]? = some r' → r'.numeric ≠ n := by
    intro i
    constructor
    · intro h
      rcases hA : Atoi intSize codeText with ⟨n, _ | err⟩
      · cases hf : rangeFind (fun r => r.numeric == n) countries 0 with
        | none =>
          rw [FromNumeric_none quote intSize countries codeText n hA hf] at h
          simp at h
        | some j =>
          obtain ⟨hcc, _, _⟩ := rangeFind_country _ countries hlen j hf
          rw [FromNumeric_some quote intSize countries codeText n j hA hf, hcc] at h
          have hji : j = i := (Prod.mk.inj h).1
          subst hji
          obtain ⟨k, r, hk, hi, hr, hmin⟩ := (rangeFind_eq_some _ countries 0 j).1 hf
          have hjk : j = k := by omega
          subst hjk
          refine ⟨n, r, rfl, hi, by simpa using hr, ?_⟩
          intro k r' hk hk'
          simpa using hmin k r' hk hk'
      · rw [FromNumeric_of_error quote intSize countries codeText n err hA] at h
        simp at h
    · rintro ⟨n, r, hA, hi, hr, hmin⟩
      have hf : rangeFind (fun r => r.numeric == n) countries 0 = some i := by
        rw [rangeFind_eq_some]
        refine ⟨i, r, by omega, hi, by simpa using hr, ?_⟩
        intro k r' hk hk'
        simpa using hmin k r' hk hk'
      obtain ⟨hcc, _, _⟩ := rangeFind_country _ countries hlen i hf
      rw [FromNumeric_some quote intSize countries codeText n i hA hf, hcc]
  refine ⟨hiff, ?_, ?_⟩
  · intro c h
    obtain ⟨n, r, hA, hi, hr, _⟩ := (hiff c).1 h
    exact ⟨n, hA, by simp [Numeric, hi, hr]⟩
  · intro s hne hd hfit
    have hs : Atoi intSize s = ((decVal s.data : Int), none) :=
      Atoi_digits intSize hsz s.data hne hd hfit
    have hplus : "+" ++ s = ⟨'+' :: s.data⟩ := by
      apply String.ext
      simp [String.data_append]
    have hp : Atoi intSize ("+" ++ s) = ((decVal s.data : Int), none) := by
      rw [hplus]
      exact Atoi_plus_digits intSize hsz s.data hne hd hfit
    refine ⟨hs, hp, ?_⟩
    intro c
    cases hf : rangeFind (fun r => r.numeric == (decVal s.data : Int)) countries 0 with
    | none =>
      rw [FromNumeric_none quote intSize countries _ _ hp hf,
        FromNumeric_none quote intSize countries _ _ hs hf]
      simp
    | some i =>
      rw [FromNumeric_some quote intSize countries _ _ i hp hf,
        FromNumeric_some quote intSize countries _ _ i hs hf]

/-- C15 (as amended) at the sample table: "+392" is accepted and `FromNumeric("+392")`
returns Country 2, as `FromNumeric("392")` does; Country 2 has numeric code 392. -/
theorem FromNumeric_characterisation_witness :
    FromNumeric plainQuote 64 sampleTable "392" = (2, none) ∧
    FromNumeric plainQuote 64 sampleTable ("+" ++ "392") = (2, none) ∧
    (∃ n, Atoi 64 "392" = (n, none) ∧ Numeric sampleTable 2 = some n) :=
  ⟨by decide,
   (((FromNumeric_characterisation plainQuote 64 (Or.inr rfl) sampleTable (by decide)
      "392").2.2 "392" (by decide) (by decide) (by decide)).2.2 2).2 (by decide),
   (FromNumeric_characterisation plainQuote 64 (Or.inr rfl) sampleTable (by decide)
      "392").2.1 2 (by decide)⟩

/-- The scan for the key of row `c` stops at the first row carrying that key, at or before
`c`. -/
theorem rangeFind_key_le {κ : Type} [DecidableEq κ] (key : country → κ)
    (countries : List country) (c : Nat) (r : country) (hc : countries[c]? = some r) :
    ∃ i r', rangeFind (fun x => key x == key r) countries 0 = some i ∧ i ≤ c ∧
      countries[i]? = some r' ∧ key r' = key r ∧
      ∀ k x, k < i → countries[k]? = some x → key x ≠ key r := by
  obtain ⟨i, r', hf, hi, hr, hmin⟩ :=
    rangeFind_of_mem (fun x => key x == key r) countries
      ⟨r, by
        obtain ⟨hlt, hr⟩ := List.getElem?_eq_some.1 hc
        exact hr ▸ List.getElem_mem hlt, by simp⟩
  refine ⟨i, r', hf, ?_, hi, by simpa using hr, ?_⟩
  · by_contra hlt
    have := hmin c r (by omega) hc
    simp at this
  · intro k x hk hx
    simpa using hmin k x hk hx

/-- C16: first-match semantics under duplicate keys.  In a table of at most 65536 rows, with
no uniqueness assumed, for every valid Country `c` the lookup `FromAlpha2(c.Alpha2())`
succeeds and returns a Country `c'` with `c' ≤ c` and `c'.Alpha2() == c.Alpha2()`, no row
before `c'` carrying that code; and likewise for `FromAlpha3` with `Alpha3`. -/
theorem first_match_under_duplicates (countries : List country)
    (hlen : countries.length ≤ 65536) (c : Country) (hc : c < countries.length) :
    (∃ code c', Alpha2 countries c = some code ∧ FromAlpha2 countries code = (c', none) ∧
      c' ≤ c ∧ Alpha2 countries c' = some code ∧
      ∀ k r, k < c' → countries[k]? = some r → r.alpha2 ≠ code) ∧
    (∃ code c', Alpha3 countries c = some code ∧ FromAlpha3 countries code = (c', none) ∧
      c' ≤ c ∧ Alpha3 countries c' = some code ∧
      ∀ k r, k < c' → countries[k]? = some r → r.alpha3 ≠ code) := by
  have hget : countries[c]? = some countries[c] := List.getElem?_eq_getElem hc
  have hc16 : c < 65536 := Nat.lt_of_lt_of_le hc hlen
  constructor
  · obtain ⟨i, r', hf, hle, hi, hkey, hmin⟩ :=
      rangeFind_key_le (fun r => r.alpha2) countries c countries[c] hget
    have hcc : toCountry i = i := toCountry_of_lt i (Nat.lt_of_le_of_lt hle hc16)
    refine ⟨countries[c].alpha2, i, by simp [Alpha2, hget], ?_, hle, ?_, hmin⟩
    · rw [FromAlpha2_some countries _ i hf, hcc]
    · simp only [Alpha2, hi, Option.map_some', Option.some.injEq]
      exact hkey
  · obtain ⟨i, r', hf, hle, hi, hkey, hmin⟩ :=
      rangeFind_key_le (fun r => r.alpha3) countries c countries[c] hget
    have hcc : toCountry i = i := toCountry_of_lt i (Nat.lt_of_le_of_lt hle hc16)
    refine ⟨countries[c].alpha3, i, by simp [Alpha3, hget], ?_, hle, ?_, hmin⟩
    · rw [FromAlpha3_some countries _ i hf, hcc]
    · simp only [Alpha3, hi, Option.map_some', Option.some.injEq]
      exact hkey

/-- C16 at the table with a duplicated code: Country 2 is coded "BB", and
`FromAlpha2("BB")` returns Country 1, the first row so coded. -/
theorem first_match_under_duplicates_witness :
    Alpha2 duplicateTable 2 = some "BB" ∧ FromAlpha2 duplicateTable "BB" = (1, none) ∧
    (∃ code c', Alpha2 duplicateTable 2 = some code ∧
      FromAlpha2 duplicateTable code = (c', none) ∧
      c' ≤ 2 ∧ Alpha2 duplicateTable c' = some code ∧
      ∀ k r, k < c' → duplicateTable[k]? = some r → r.alpha2 ≠ code) :=
  ⟨by decide, by decide,
    (first_match_under_duplicates duplicateTable (by decide) 2 (by decide)).1⟩

/-- C17: the zero Country is not an absence sentinel.  Whenever `FromAlpha2`, `FromAlpha3`
or `FromNumeric` returns a non-nil error, the Country returned with it is 0; and in a table
with a first row, looking up a key of that row (its alpha2, its alpha3, or a text that
`Atoi` reads as its numeric code) returns Country 0 with a nil error. -/
theorem zero_is_no_sentinel (quote : String → String) (intSize : Nat)
    (countries : List country) (input : String) :
    ((FromAlpha2 countries input).2 ≠ none → (FromAlpha2 countries input).1 = 0) ∧
    ((FromAlpha3 countries input).2 ≠ none → (FromAlpha3 countries input).1 = 0) ∧
    ((FromNumeric quote intSize countries input).2 ≠ none →
      (FromNumeric quote intSize countries input).1 = 0) ∧
    (∀ r0 rest, countries = r0 :: rest →
      FromAlpha2 countries r0.alpha2 = (0, none) ∧
      FromAlpha3 countries r0.alpha3 = (0, none) ∧
      ∀ text, Atoi intSize text = (r0.numeric, none) →
        FromNumeric quote intSize countries text = (0, none)) := by
  refine ⟨?_, ?_, ?_, ?_⟩
  · cases hf : rangeFind (fun r => r.alpha2 == input) countries 0 with
    | none => rw [FromAlpha2_none countries input hf]; simp
    | some i => rw [FromAlpha2_some countries input i hf]; simp
  · cases hf : rangeFind (fun r => r.alpha3 == input) countries 0 with
    | none => rw [FromAlpha3_none countries input hf]; simp
    | some i => rw [FromAlpha3_some countries input i hf]; simp
  · rcases hA : Atoi intSize input with ⟨n, _ | err⟩
    · cases hf : rangeFind (fun r => r.numeric == n) countries 0 with
      | none => rw [FromNumeric_none quote intSize countries input n hA hf]; simp
      | some i => rw [FromNumeric_some quote intSize countries input n i hA hf]; simp
    · rw [FromNumeric_of_error quote intSize countries input n err hA]; simp
  · rintro r0 rest rfl
    refine ⟨?_, ?_, ?_⟩
    · rw [FromAlpha2_some (r0 :: rest) r0.alpha2 0 (by simp [rangeFind])]
      rfl
    · rw [FromAlpha3_some (r0 :: rest) r0.alpha3 0 (by simp [rangeFind])]
      rfl
    · intro text hA
      rw [FromNumeric_some quote intSize (r0 :: rest) text r0.numeric 0 hA
        (by simp [rangeFind])]
      rfl

/-- C17 at the sample table: `FromAlpha2("AF")` succeeds with Country 0 and
`FromAlpha2("ZZ")` fails with Country 0; the two results differ in the error only. -/
theorem zero_is_no_sentinel_witness :
    FromAlpha2 sampleTable "AF" = (0, none) ∧
    (FromAlpha2 sampleTable "ZZ").1 = 0 ∧ (FromAlpha2 sampleTable "ZZ").2 ≠ none ∧
    (FromAlpha2 sampleTable "AF").1 = (FromAlpha2 sampleTable "ZZ").1 ∧
    FromNumeric plainQuote 64 sampleTable "4" = (0, none) :=
  ⟨((zero_is_no_sentinel plainQuote 64 sampleTable "ZZ").2.2.2
      ⟨"AF", "AFG", 4, "Afghanistan"⟩ _ rfl).1,
   (zero_is_no_sentinel plainQuote 64 sampleTable "ZZ").1 (by decide),
   by decide, by decide,
   ((zero_is_no_sentinel plainQuote 64 sampleTable "ZZ").2.2.2
      ⟨"AF", "AFG", 4, "Afghanistan"⟩ _ rfl).2.2 "4" (by decide)⟩

/-! ## The models of `strconv.Atoi` and `fmt.Sprintf` on sample inputs -/

/-- The model of `Atoi` on inputs whose results are known from Go: signs, leading zeros, the
limits of a 64-bit and of a 32-bit `int`, and the two kinds of error. -/
theorem Atoi_samples :
    Atoi 64 "004" = (4, none) ∧
    Atoi 64 "+392" = (392, none) ∧
    Atoi 64 "-392" = (-392, none) ∧
    Atoi 64 "00000000000000000000000012" = (12, none) ∧
    Atoi 64 "9223372036854775807" = (9223372036854775807, none) ∧
    Atoi 64 "-9223372036854775808" = (-9223372036854775808, none) ∧
    Atoi 64 "9223372036854775808" =
      (9223372036854775807, some ⟨"Atoi", "9223372036854775808", .ErrRange⟩) ∧
    Atoi 64 "-99999999999999999999" =
      (-9223372036854775808, some ⟨"Atoi", "-99999999999999999999", .ErrRange⟩) ∧
    Atoi 32 "2147483647" = (2147483647, none) ∧
    Atoi 32 "2147483648" = (2147483647, some ⟨"Atoi", "2147483648", .ErrRange⟩) ∧
    Atoi 64 "" = (0, some ⟨"Atoi", "", .ErrSyntax⟩) ∧
    Atoi 64 "+" = (0, some ⟨"Atoi", "+", .ErrSyntax⟩) ∧
    Atoi 64 "abc" = (0, some ⟨"Atoi", "abc", .ErrSyntax⟩) ∧
    Atoi 64 "1_000" = (0, some ⟨"Atoi", "1_000", .ErrSyntax⟩) ∧
    Atoi 64 " 4" = (0, some ⟨"Atoi", " 4", .ErrSyntax⟩) ∧
    Atoi 64 "+00000000000000000000000012a" =
      (0, some ⟨"Atoi", "+00000000000000000000000012a", .ErrSyntax⟩) := by
  repeat' apply And.intro
  all_goals decide

/-- The model of `Sprintf("%03d", n)` on sample numbers, a negative one included. -/
theorem sprintf03d_samples :
    sprintf03d 0 = "000" ∧ sprintf03d 4 = "004" ∧ sprintf03d 76 = "076" ∧
    sprintf03d 840 = "840" ∧ sprintf03d 12345 = "12345" ∧ sprintf03d (-5) = "-05" := by
  refine ⟨?_, ?_, ?_, ?_, ?_, ?_⟩ <;>
    simp [sprintf03d, fmtDigits, padZeros, digitChar]

/-- The lookups on the sample table, as in the scenarios of the specification. -/
theorem lookup_samples :
    FromAlpha2 sampleTable "US" = (3, none) ∧
    FromAlpha3 sampleTable "DEU" = (1, none) ∧
    FromNumeric plainQuote 64 sampleTable "392" = (2, none) ∧
    Alpha2 sampleTable 2 = some "JP" ∧ Alpha3 sampleTable 2 = some "JPN" ∧
    (FromAlpha2 sampleTable "ZZ").2.map Error.Error =
      some "iso3166: no country exists with alpha2-code ZZ" := by
  repeat' apply And.intro
  all_goals decide

end Iso3166
